import Mathlib

/-!
Shallow embedding of the RAMCloud recovery-capable master storage engine
(`src/MasterServer.cc`) and proofs about its claimed properties.

Machine integers (`uint64_t`) are modelled as `Nat`; versions and ids are
allocated sequentially from small values, so 64-bit wraparound is
unreachable on every code path treated here.  The one place where integer
width is semantically visible — the `std::map<uint32_t, Table*>` key in
`MasterServer::setTablets`, which truncates 64-bit table ids — is modelled
with an explicit `% 2^32`.
-/

namespace RAMCloud

/-- Status / exception outcomes surfaced by the master's operations,
corresponding to the `ClientException` subclasses thrown in
`MasterServer.cc`. `ok` is the non-throwing path. -/
inductive Status where
  | ok
  | tableDoesntExist
  | objectDoesntExist
  | objectExists
  | wrongVersion
  | segmentRecoveryFailed
deriving DecidableEq, Repr

/-- An object log record (log entry type OBJ), from `Object` as used in
`MasterServer.cc`: fields `id`, `table`, `version`, `checksum`, and the
payload bytes (`data_len` is implicitly `data.length`). -/
structure Object where
  id : Nat
  table : Nat
  version : Nat
  checksum : Nat
  data : List Nat
deriving DecidableEq, Repr

/-- A tombstone log record (log entry type OBJTOMB): fields `tableId`,
`objectId`, `objectVersion`, `segmentId` as in the source. -/
structure ObjectTombstone where
  tableId : Nat
  objectId : Nat
  objectVersion : Nat
  segmentId : Nat
deriving DecidableEq, Repr

/-- The RejectRules bit fields consulted by `MasterServer::rejectOperation`.
The source field `exists` is a Lean keyword, hence spelled `exists_`. -/
structure RejectRules where
  doesntExist : Bool
  exists_ : Bool
  versionLeGiven : Bool
  versionNeGiven : Bool
  givenVersion : Nat
deriving DecidableEq, Repr

/-- RejectRules with every bit clear (the `memset` to zero in the source). -/
def noRules : RejectRules := ⟨false, false, false, false, 0⟩

namespace MasterServer

/-- Embedding of `MasterServer::rejectOperation` (MasterServer.cc:840-854).
The current version is `none` for `VERSION_NONEXISTENT`.  Returns the
exception thrown, with `Status.ok` for the fall-through (accept) path. -/
def rejectOperation (rejectRules : RejectRules) (version : Option Nat) : Status :=
  match version with
  | none =>
    if rejectRules.doesntExist then .objectDoesntExist else .ok
  | some v =>
    if rejectRules.exists_ then .objectExists
    else if rejectRules.versionLeGiven && decide (v ≤ rejectRules.givenVersion) then
      .wrongVersion
    else if rejectRules.versionNeGiven && decide (v ≠ rejectRules.givenVersion) then
      .wrongVersion
    else .ok

/-- The decision value computed for an OBJ record in
`MasterServer::recoverSegment` (MasterServer.cc:593-597): the object branch
of the `minSuccessor` if/else-if chain, with `localObj` the object-index
lookup and `tomb` the recovery-tombstone-index lookup. -/
def objMinSuccessor (localObj : Option Object) (tomb : Option ObjectTombstone) : Nat :=
  match localObj with
  | some l => l.version + 1
  | none =>
    match tomb with
    | some t => t.objectVersion + 1
    | none => 0

/-- The decision value computed for an OBJTOMB record in
`MasterServer::recoverSegment` (MasterServer.cc:636-640): as
`objMinSuccessor` but using `localObj->version` without the `+ 1`. -/
def tombMinSuccessor (localObj : Option Object) (tomb : Option ObjectTombstone) : Nat :=
  match localObj with
  | some l => l.version
  | none =>
    match tomb with
    | some t => t.objectVersion + 1
    | none => 0

/-- The test `recoverObj->version >= minSuccessor` (MasterServer.cc:599). -/
def objApplies (localObj : Option Object) (tomb : Option ObjectTombstone)
    (recoverObj : Object) : Bool :=
  decide (objMinSuccessor localObj tomb ≤ recoverObj.version)

/-- The test `recoverTomb->objectVersion >= minSuccessor` (MasterServer.cc:642). -/
def tombApplies (localObj : Option Object) (tomb : Option ObjectTombstone)
    (recoverTomb : ObjectTombstone) : Bool :=
  decide (tombMinSuccessor localObj tomb ≤ recoverTomb.objectVersion)

/-- A typed record of a filtered recovery segment, as dispatched on by
`SegmentIterator::getType` in `recoverSegment`. -/
inductive LogRec where
  | obj (o : Object)
  | tomb (t : ObjectTombstone)
deriving DecidableEq, Repr

/-- The `(tblId, objId)` pair extracted from a record in `recoverSegment`. -/
def recKey : LogRec → Nat × Nat
  | .obj o => (o.table, o.id)
  | .tomb t => (t.tableId, t.objectId)

/-- The state mutated by segment replay: the object index (`objectMap`) and
the recovery tombstone index (`tombstoneMap`), each keyed by
`(tableId, objectId)`.  Index contents are the record values; the log append
performed for an applied OBJ record stores an identical copy of the record,
so the appended bytes are not modelled separately here. -/
structure RState where
  objectMap : Nat × Nat → Option Object
  tombstoneMap : Nat × Nat → Option ObjectTombstone

/-- The per-key transition of `recoverSegment` for one record: an applied
OBJ record replaces the object and removes any tombstone
(MasterServer.cc:599-623); an applied OBJTOMB record replaces the tombstone
and removes any object (MasterServer.cc:642-661); otherwise the record is
skipped and the pair is unchanged. -/
def recStep : LogRec → Option Object × Option ObjectTombstone →
    Option Object × Option ObjectTombstone
  | .obj recoverObj, (localObj, tomb) =>
    if objApplies localObj tomb recoverObj then (some recoverObj, none)
    else (localObj, tomb)
  | .tomb recoverTomb, (localObj, tomb) =>
    if tombApplies localObj tomb recoverTomb then (none, some recoverTomb)
    else (localObj, tomb)

/-- One iteration of the `recoverSegment` replay loop on a typed record. -/
def recoverRecord (s : RState) (r : LogRec) : RState :=
  let p := recStep r (s.objectMap (recKey r), s.tombstoneMap (recKey r))
  { objectMap := Function.update s.objectMap (recKey r) p.1
    tombstoneMap := Function.update s.tombstoneMap (recKey r) p.2 }

/-- Embedding of `MasterServer::recoverSegment`: replay every record of a
filtered segment in order. -/
def recoverSegment (s : RState) (records : List LogRec) : RState :=
  records.foldl recoverRecord s

/-- Replay of a stream of filtered segments, each replayed in order by
`recoverSegment` (the per-segment calls issued by `MasterServer::recover`). -/
def replaySegments (s : RState) (segments : List (List LogRec)) : RState :=
  segments.foldl recoverSegment s

/-- Invariant I1 checked by the asserts at MasterServer.cc:591 and 634:
no key simultaneously holds an object reference and a recovery tombstone. -/
def DisjointIndexes (s : RState) : Prop :=
  ∀ k, s.objectMap k = none ∨ s.tombstoneMap k = none

/-- Replay state with both indexes empty, the situation at the start of a
recovery (`ObjectTombstoneMap` is freshly allocated in `recover`). -/
def emptyRState : RState := ⟨fun _ => none, fun _ => none⟩

/-- Example object for key `(1, 2)` at version 5, used in witnesses. -/
def exObj : Object := ⟨2, 1, 5, 0, []⟩

/-- Example replay state whose object index holds `exObj` at `(1, 2)`. -/
def exObjState : RState :=
  ⟨fun k => if k = (1, 2) then some exObj else none, fun _ => none⟩

/-- Example tombstone for key `(1, 2)` at object version 5. -/
def exTomb : ObjectTombstone := ⟨1, 2, 5, 3⟩

/-- Example replay state whose tombstone index holds `exTomb` at `(1, 2)`. -/
def exTombState : RState :=
  ⟨fun _ => none, fun k => if k = (1, 2) then some exTomb else none⟩

/-- Example incoming OBJ record for key `(1, 2)` at version 5. -/
def exRecoverObj : Object := ⟨2, 1, 5, 0, [9]⟩

/-- Compatibility of two records for order-independent replay: two records of
the same entry type, for the same key and with the same version, must be the
very same record.  A stream produced from a single crashed master's log
satisfies this — a given version of a key is written at most once, and
cleaner rewrites copy records verbatim — but the replay code itself does not
enforce it, which is exactly where order independence can fail. -/
def DupCompat : LogRec → LogRec → Prop
  | .obj a, .obj b =>
      a.table = b.table → a.id = b.id → a.version = b.version → a = b
  | .tomb a, .tomb b =>
      a.tableId = b.tableId → a.objectId = b.objectId →
        a.objectVersion = b.objectVersion → a = b
  | _, _ => True

instance : ∀ r1 r2 : LogRec, Decidable (DupCompat r1 r2)
  | .obj a, .obj b =>
      inferInstanceAs (Decidable
        (a.table = b.table → a.id = b.id → a.version = b.version → a = b))
  | .tomb a, .tomb b =>
      inferInstanceAs (Decidable
        (a.tableId = b.tableId → a.objectId = b.objectId →
          a.objectVersion = b.objectVersion → a = b))
  | .obj _, .tomb _ => inferInstanceAs (Decidable True)
  | .tomb _, .obj _ => inferInstanceAs (Decidable True)

/-- Two OBJ records for key `(1, 1)` that share version 5 but carry different
payloads, used to exhibit order dependence of replay. -/
def exObjA : Object := ⟨1, 1, 5, 0, [0]⟩

/-- Companion to `exObjA` with the same key and version, different data. -/
def exObjB : Object := ⟨1, 1, 5, 0, [1]⟩

/-- An example tombstone for key `(1, 1)` at object version 7. -/
def exTomb7 : ObjectTombstone := ⟨1, 1, 7, 3⟩

/-- A tablet entry of the `ProtoBuf::Tablets` set consulted by
`MasterServer::getTable`: its table id and inclusive object-id range. -/
structure Tablet where
  table_id : Nat
  start_object_id : Nat
  end_object_id : Nat
deriving DecidableEq, Repr

/-- Modelled from the spec: the per-table `Table` object (its header is not
part of this fragment).  Only the monotone version counter is modelled:
`AllocateVersion` returns `nextVersion` and increments it, and
`RaiseVersion(v)` raises `nextVersion` to at least `v` (spec sections 3 and
4.4: versions are monotone and a recreate after a remove strictly exceeds
the removed version).  The key-allocator counter touches no claim treated
here and is omitted. -/
structure Table where
  nextVersion : Nat
deriving DecidableEq, Repr

/-- A log or object-index side effect performed by a serving operation,
recorded in program order: `free`, `appendObj`, `appendTomb` are the `Log`
calls; `replaceIdx` and `removeIdx` are the `objectMap` mutations. -/
inductive LogOp where
  | free (o : Object)
  | appendObj (o : Object)
  | appendTomb (t : ObjectTombstone)
  | replaceIdx (tableId id : Nat) (o : Object)
  | removeIdx (tableId id : Nat)
deriving DecidableEq, Repr

/-- Serving-path master state: the owned tablets, one `Table` per table id
(all tablets of a table id share a single `Table`; the aliasing behaviour of
`setTablets` itself is analysed separately below), the object index, and the
log's record-to-segment assignment `segmentIdOf`, abstracting
`Log::getSegmentId`. -/
structure MState where
  tablets : List Tablet
  tables : Nat → Table
  objectMap : Nat → Nat → Option Object
  segmentIdOf : Object → Nat

/-- The tablet-ownership test of `MasterServer::getTable`
(MasterServer.cc:812-823): some owned tablet has this table id and its range
contains the object id. -/
def tabletExists (s : MState) (tableId objectId : Nat) : Bool :=
  s.tablets.any fun t =>
    decide (t.table_id = tableId) && decide (t.start_object_id ≤ objectId) &&
      decide (objectId ≤ t.end_object_id)

/-- Outcome of one serving operation: the status (thrown exception or ok),
the version written into the response header (`none` when that field is
never assigned), the log and index side effects in program order, and the
state after the operation. -/
structure OpResult where
  status : Status
  version : Option Nat
  events : List LogOp
  state : MState

/-- The checksum sentinel written unconditionally (MasterServer.cc:1019). -/
def checksumSentinel : Nat := 0x0BE70BE70BE70BE7

/-- Embedding of `MasterServer::storeData` (MasterServer.cc:993-1043).
Control flow: `getTable` throws TableDoesntExist; then the hash lookup and
`rejectOperation` — on a reject the current version is stored into the
response and the exception propagates with no side effect; on accept the new
object gets `version = prev.version + 1` when a previous object exists and
`Table::AllocateVersion()` otherwise, and if a previous object exists it is
freed first and a tombstone carrying `Log::getSegmentId(prev)` is appended,
before the new object is appended and published via `objectMap.replace`. -/
def storeData (s : MState) (tableId id : Nat) (rejectRules : RejectRules)
    (data : List Nat) : OpResult :=
  if tabletExists s tableId id then
    let o := s.objectMap tableId id
    let version := o.map Object.version
    match rejectOperation rejectRules version with
    | .ok =>
      let t := s.tables tableId
      let newVer := match o with
        | some prev => prev.version + 1
        | none => t.nextVersion
      let tables' := match o with
        | some _ => s.tables
        | none => fun tid => if tid = tableId then ⟨t.nextVersion + 1⟩ else s.tables tid
      let newObject : Object := ⟨id, tableId, newVer, checksumSentinel, data⟩
      let pre : List LogOp := match o with
        | some prev =>
          [.free prev,
           .appendTomb ⟨prev.table, prev.id, prev.version, s.segmentIdOf prev⟩]
        | none => []
      { status := .ok
        version := some newVer
        events := pre ++ [.appendObj newObject, .replaceIdx tableId id newObject]
        state :=
          { s with
            tables := tables'
            objectMap := fun tid oid =>
              if tid = tableId ∧ oid = id then some newObject
              else s.objectMap tid oid } }
    | e => ⟨e, version, [], s⟩
  else ⟨.tableDoesntExist, none, [], s⟩

/-- Embedding of `MasterServer::remove` (MasterServer.cc:673-698).  On the
accept path the code constructs `ObjectTombstone tomb(tomb.segmentId, o)`,
reading the uninitialized `tomb.segmentId` member of the very tombstone
being constructed; the indeterminate stack value read there enters the model
as the parameter `uninitSegmentId`. -/
def remove (s : MState) (tableId id : Nat) (rejectRules : RejectRules)
    (uninitSegmentId : Nat) : OpResult :=
  if tabletExists s tableId id then
    match s.objectMap tableId id with
    | none => ⟨rejectOperation rejectRules none, none, [], s⟩
    | some o =>
      match rejectOperation rejectRules (some o.version) with
      | .ok =>
        let t := s.tables tableId
        let tables' := fun tid =>
          if tid = tableId then Table.mk (max t.nextVersion (o.version + 1))
          else s.tables tid
        let tomb : ObjectTombstone := ⟨o.table, o.id, o.version, uninitSegmentId⟩
        { status := .ok
          version := some o.version
          events := [.free o, .appendTomb tomb, .removeIdx tableId id]
          state :=
            { s with
              tables := tables'
              objectMap := fun tid oid =>
                if tid = tableId ∧ oid = id then none else s.objectMap tid oid } }
      | e => ⟨e, some o.version, [], s⟩
  else ⟨.tableDoesntExist, none, [], s⟩

/-- Embedding of `MasterServer::read` (MasterServer.cc:275-297): no log or
index mutation; the response version is assigned before the reject rules
are evaluated. -/
def read (s : MState) (tableId id : Nat) (rejectRules : RejectRules) : OpResult :=
  if tabletExists s tableId id then
    match s.objectMap tableId id with
    | none => ⟨.objectDoesntExist, none, [], s⟩
    | some o => ⟨rejectOperation rejectRules (some o.version), some o.version, [], s⟩
  else ⟨.tableDoesntExist, none, [], s⟩

/-- Embedding of `MasterServer::create` (MasterServer.cc:233-249).  The id
returned by `Table::AllocateKey` is passed in as `idAlloc` (modelled from
the spec: the allocator yields ids not currently present in the index, but
no claim treated here depends on that, so the parameter is left free; the
key-counter bump it performs touches neither the log nor the object index
and is omitted).  `create` resolves the tablet for object id `~0UL`
= `2^64 - 1` and then behaves as `storeData` with only the `exists` reject
bit set. -/
def create (s : MState) (tableId idAlloc : Nat) (data : List Nat) : OpResult :=
  if tabletExists s tableId (2 ^ 64 - 1) then
    storeData s tableId idAlloc ⟨false, true, false, false, 0⟩ data
  else ⟨.tableDoesntExist, none, [], s⟩

/-- One client-visible operation dispatched by the master
(`dispatch`, MasterServer.cc:182-218), with the modelling parameters
described on each embedded operation. -/
inductive ServOp where
  | read (tableId id : Nat) (rules : RejectRules)
  | write (tableId id : Nat) (rules : RejectRules) (data : List Nat)
  | create (tableId idAlloc : Nat) (data : List Nat)
  | remove (tableId id : Nat) (rules : RejectRules) (uninitSegmentId : Nat)

/-- Execute one operation (`write` is `storeData` on the request's rules,
MasterServer.cc:786-793). -/
def execOp (s : MState) : ServOp → OpResult
  | .read tableId id rules => read s tableId id rules
  | .write tableId id rules data => storeData s tableId id rules data
  | .create tableId idAlloc data => create s tableId idAlloc data
  | .remove tableId id rules uninit => remove s tableId id rules uninit

/-- The four client-precondition failures of section 7 of the spec. -/
def isPreconditionError : Status → Bool
  | .tableDoesntExist => true
  | .objectDoesntExist => true
  | .objectExists => true
  | .wrongVersion => true
  | _ => false

/-- Ghost bookkeeping for the version-monotonicity claim: after an accepted
write or create installing version `v` at the operation's key, the largest
observed version there becomes `max` of the old bound and `v`. -/
def ghostUpdate (m : Nat → Nat → Nat) (tableId id : Nat) (r : OpResult) :
    Nat → Nat → Nat :=
  match r with
  | ⟨.ok, some v, _, _⟩ =>
    fun t k => if t = tableId ∧ k = id then max (m t k) v else m t k
  | _ => m

/-- Ghost observation map after one operation: the largest version ever held
by the object index at each key (0 when the key never held an object). -/
def ghostStep (s : MState) (m : Nat → Nat → Nat) : ServOp → (Nat → Nat → Nat)
  | .write tableId id rules data =>
    ghostUpdate m tableId id (execOp s (.write tableId id rules data))
  | .create tableId idAlloc data =>
    ghostUpdate m tableId idAlloc (execOp s (.create tableId idAlloc data))
  | _ => m

/-- Run a list of operations from a state, tracking the ghost map. -/
def runOps : MState → (Nat → Nat → Nat) → List ServOp → MState × (Nat → Nat → Nat)
  | s, m, [] => (s, m)
  | s, m, op :: ops => runOps (execOp s op).state (ghostStep s m op) ops

/-- A fresh master state: the given tablets, an empty object index, and
every table's version counter at its initial value 1 (modelled from the
spec: versions come from a monotone per-table counter; the initial value
only needs to be positive). -/
def initState (tablets0 : List Tablet) (segOf : Object → Nat) : MState :=
  ⟨tablets0, fun _ => ⟨1⟩, fun _ _ => none, segOf⟩

/-- Invariant tying a state to the ghost map: a key holding an object holds
exactly the largest version ever observed there, and a key holding nothing
has its table's next allocation strictly above everything observed there. -/
def VersionsInv (s : MState) (m : Nat → Nat → Nat) : Prop :=
  ∀ t k,
    (∀ o, s.objectMap t k = some o → o.version = m t k) ∧
    (s.objectMap t k = none → m t k < (s.tables t).nextVersion)

/-- Example single-tablet list: table 1 owns object ids 0 through 2^64-1. -/
def exTablets : List Tablet := [⟨1, 0, 2 ^ 64 - 1⟩]

/-- Example previous object: key `(1, 5)` at version 3. -/
def exPrev : Object := ⟨5, 1, 3, 0, []⟩

/-- Example serving state holding `exPrev` at `(1, 5)`; every record is
assigned to segment 7. -/
def exServState : MState :=
  ⟨exTablets, fun _ => ⟨1⟩, fun t k => if t = 1 ∧ k = 5 then some exPrev else none,
   fun _ => 7⟩

/-- Example previous object for the remove bug: key `(1, 1)` at version 3. -/
def exRemPrev : Object := ⟨1, 1, 3, 0, []⟩

/-- Example serving state holding `exRemPrev` at `(1, 1)`, whose record the
log places in segment 5. -/
def exRemState : MState :=
  ⟨exTablets, fun _ => ⟨1⟩, fun t k => if t = 1 ∧ k = 1 then some exRemPrev else none,
   fun _ => 5⟩

end MasterServer

namespace SegmentLocatorChooser

/-- Embedding of `SegmentLocatorChooser::get` (MasterServer.cc:76-91).  The
multimap is the list of (segment id, locator) pairs; if no locator remains
for the segment id the call throws SegmentRecoveryFailed, otherwise it
returns the entry at a pseudo-random offset into the remaining range (the
source draws `rdtsc() % count`; the random draw enters as `rand`). -/
def get (map : List (Nat × String)) (segmentId : Nat) (rand : Nat) :
    Except Status String :=
  let range := map.filter fun kv => decide (kv.1 = segmentId)
  if h : range.length = 0 then .error .segmentRecoveryFailed
  else .ok (range.get ⟨rand % range.length, Nat.mod_lt _ (Nat.pos_of_ne_zero h)⟩).2

/-- Embedding of `SegmentLocatorChooser::markAsDown` (MasterServer.cc:114-129):
erase the first mapping of this segment id to this locator, if any. -/
def markAsDown : List (Nat × String) → Nat → String → List (Nat × String)
  | [], _, _ => []
  | kv :: rest, segmentId, locator =>
    if kv.1 = segmentId ∧ kv.2 = locator then rest
    else kv :: markAsDown rest segmentId locator

end SegmentLocatorChooser

/-- Failure of a `getRecoveryData` RPC, covering the `TransportException`
and `ClientException` catch clauses of `MasterServer::recover`. -/
inductive FetchError where
  | transport
  | client
deriving DecidableEq, Repr

namespace MasterServer

/-- The per-segment fetch behaviour of `MasterServer::recover`
(MasterServer.cc:377-407): a backup locator is drawn from the chooser for
the segment (which itself throws SegmentRecoveryFailed if none remains) and
`getRecoveryData` is invoked on it; both catch clauses throw
SegmentRecoveryFailedException immediately — the code calls neither
`markAsDown` nor `get` again (the TODOs at MasterServer.cc:400 and 405). -/
def fetchSegment (map : List (Nat × String)) (segmentId rand : Nat)
    (getRecoveryData : String → Except FetchError (List Nat)) :
    Except Status (List Nat) :=
  match SegmentLocatorChooser.get map segmentId rand with
  | .error e => .error e
  | .ok locator =>
    match getRecoveryData locator with
    | .ok bytes => .ok bytes
    | .error _ => .error .segmentRecoveryFailed

/-- Example backup responses: backup-a raises a transport error while
backup-b serves the segment successfully. -/
def exBackups : String → Except FetchError (List Nat) :=
  fun locator => if locator = "backup-a" then .error .transport else .ok [1, 2]

/-- A tablet as manipulated by `MasterServer::setTablets`: its 64-bit table
id and its `user_data` field holding the `Table*` pointer, modelled as a
heap token.  The key-range and locator fields are carried through verbatim
by the source and are omitted. -/
structure TabletT where
  table_id : Nat
  user_data : Nat
deriving DecidableEq, Repr

/-- The contents of a heap-allocated `Table`: the id it was constructed with
and (modelled from the spec, the Table header being absent from this
fragment) its two monotone counters, at initial values 0 and 1 when
freshly constructed. -/
structure TableC where
  tableId : Nat
  nextKey : Nat
  nextVersion : Nat
deriving DecidableEq, Repr

/-- State acted on by `setTablets`: the active tablet list, the heap of live
`Table` allocations keyed by pointer token, and the next fresh token. -/
structure TabState where
  tablets : List TabletT
  heap : Nat → Option TableC
  nextToken : Nat

/-- The modulus `2^32` applied to a 64-bit table id whenever it is used as a
key of the `std::map<uint32_t, Table*>` in `setTablets`
(MasterServer.cc:714): the `operator[]` calls narrow the id to `uint32_t`.
The deletion loop's comparison `oldTable.first == newTablet.table_id()`
promotes both operands to 64 bits and is not truncated. -/
def U32 : Nat := 4294967296

/-- Lookup in the association-list model of `std::map<uint32_t, Table*>`. -/
def mapLookup : List (Nat × Nat) → Nat → Option Nat
  | [], _ => none
  | kv :: rest, key => if kv.1 = key then some kv.2 else mapLookup rest key

/-- Insert-or-overwrite in the association-list model, as an `operator[]`
assignment behaves. -/
def mapInsert : List (Nat × Nat) → Nat → Nat → List (Nat × Nat)
  | [], key, v => [(key, v)]
  | kv :: rest, key, v =>
    if kv.1 = key then (key, v) :: rest else kv :: mapInsert rest key v

/-- The first loop of `setTablets` (MasterServer.cc:717-721): build the map
from truncated table id to each pre-existing tablet's `Table*`; a later
tablet with the same truncated id overwrites an earlier one, as repeated
`operator[]` assignments do. -/
def buildTables (old : List TabletT) : List (Nat × Nat) :=
  old.foldl (fun mp t => mapInsert mp (t.table_id % U32) t.user_data) []

/-- The deletion loop of `setTablets` (MasterServer.cc:726-744): for each
entry of the temporary map, the `Table` it points to is deleted unless some
new tablet's 64-bit table id equals the entry's truncated 32-bit key.  (The
loop mutates a by-value copy of the pair, so the map itself keeps the
dangling pointer.) -/
def deleteOldTables (tables : List (Nat × Nat)) (newTablets : List TabletT)
    (heap : Nat → Option TableC) : Nat → Option TableC :=
  tables.foldl
    (fun h kv =>
      if newTablets.any fun nt => decide (kv.1 = nt.table_id) then h
      else Function.update h kv.2 none)
    heap

/-- The assignment loop of `setTablets` (MasterServer.cc:747-763): walk the
new tablets in order; `tables[key]` (truncated key) yields the recorded
pointer when present — even a dangling one — and otherwise a fresh `Table`
is allocated and recorded in the map; each tablet's `user_data` is set to
the pointer obtained.  Returns the rewritten tablets, the final map, the
final heap and the next fresh token. -/
def assignTables :
    List TabletT → List (Nat × Nat) → (Nat → Option TableC) → Nat →
      List TabletT × List (Nat × Nat) × (Nat → Option TableC) × Nat
  | [], tables, heap, next => ([], tables, heap, next)
  | nt :: rest, tables, heap, next =>
    match mapLookup tables (nt.table_id % U32) with
    | some tok =>
      let r := assignTables rest tables heap next
      (⟨nt.table_id, tok⟩ :: r.1, r.2.1, r.2.2.1, r.2.2.2)
    | none =>
      let heap2 := Function.update heap next (some ⟨nt.table_id, 0, 1⟩)
      let tables2 := mapInsert tables (nt.table_id % U32) next
      let r := assignTables rest tables2 heap2 (next + 1)
      (⟨nt.table_id, next⟩ :: r.1, r.2.1, r.2.2.1, r.2.2.2)

/-- Embedding of `MasterServer::setTablets` (MasterServer.cc:711-764). -/
def setTablets (s : TabState) (newTablets : List TabletT) : TabState :=
  let tables := buildTables s.tablets
  let heap1 := deleteOldTables tables newTablets s.heap
  let r := assignTables newTablets tables heap1 s.nextToken
  ⟨r.1, r.2.2.1, r.2.2.2⟩

/-- Counterexample state for the table-id truncation: one tablet with table
id `2^32` whose `Table` lives at token 7. -/
def exTabState : TabState :=
  ⟨[⟨4294967296, 7⟩], fun tok => if tok = 7 then some ⟨4294967296, 3, 9⟩ else none, 8⟩

/-- The new tablet set for the truncation counterexample: the same table id
`2^32`. -/
def exNewTablets : List TabletT := [⟨4294967296, 0⟩]

end MasterServer

end RAMCloud

namespace RAMCloud

/-- C2: `rejectOperation` decides acceptance by first match, in order:
for a nonexistent current version, reject with ObjectDoesntExist exactly when
`doesntExist` is set, otherwise accept; for an existing version `v`, reject
with ObjectExists when `exists` is set, else with WrongVersion when
`versionLeGiven` is set and `v ≤ givenVersion`, else with WrongVersion when
`versionNeGiven` is set and `v ≠ givenVersion`, and otherwise accept.
It is a pure function of `(rules, currentVersion)` (it is a Lean function of
exactly these two arguments). -/
theorem rejectOperation_first_match (rules : RejectRules) (v : Nat) :
    MasterServer.rejectOperation rules none =
      (if rules.doesntExist = true then Status.objectDoesntExist else Status.ok)
    ∧ MasterServer.rejectOperation rules (some v) =
      (if rules.exists_ = true then Status.objectExists
       else if rules.versionLeGiven = true ∧ v ≤ rules.givenVersion then Status.wrongVersion
       else if rules.versionNeGiven = true ∧ v ≠ rules.givenVersion then Status.wrongVersion
       else Status.ok) := by
  obtain ⟨d, e, vle, vne, g⟩ := rules
  refine ⟨by simp [MasterServer.rejectOperation], ?_⟩
  by_cases hle : v ≤ g <;> by_cases hne : v = g <;>
    cases e <;> cases vle <;> cases vne <;>
      simp [MasterServer.rejectOperation, hle, hne]

theorem MasterServer.recoverRecord_objectMap (s : RState) (r : LogRec) (k : Nat × Nat) :
    (recoverRecord s r).objectMap k =
      if k = recKey r then
        (recStep r (s.objectMap (recKey r), s.tombstoneMap (recKey r))).1
      else s.objectMap k := by
  by_cases hk : k = recKey r
  · subst hk
    simp [recoverRecord, Function.update_same]
  · simp [recoverRecord, Function.update_noteq hk, hk]

theorem MasterServer.recoverRecord_tombstoneMap (s : RState) (r : LogRec) (k : Nat × Nat) :
    (recoverRecord s r).tombstoneMap k =
      if k = recKey r then
        (recStep r (s.objectMap (recKey r), s.tombstoneMap (recKey r))).2
      else s.tombstoneMap k := by
  by_cases hk : k = recKey r
  · subst hk
    simp [recoverRecord, Function.update_same]
  · simp [recoverRecord, Function.update_noteq hk, hk]

theorem MasterServer.recoverRecord_skip (s : RState) (r : LogRec)
    (h : recStep r (s.objectMap (recKey r), s.tombstoneMap (recKey r)) =
      (s.objectMap (recKey r), s.tombstoneMap (recKey r))) :
    recoverRecord s r = s := by
  obtain ⟨f, g⟩ := s
  show RState.mk
      (Function.update f (recKey r) (recStep r (f (recKey r), g (recKey r))).1)
      (Function.update g (recKey r) (recStep r (f (recKey r), g (recKey r))).2) =
    RState.mk f g
  rw [h]
  simp [Function.update_eq_self]

/-- C1: during segment replay, an OBJ record is applied iff its version is at
least `minSuccessor = L ? L.version+1 : (T ? T.objectVersion+1 : 0)`, and an
OBJTOMB record is applied iff its objectVersion is at least
`minSuccessor = L ? L.version : (T ? T.objectVersion+1 : 0)`; consequently a
tombstone whose version equals the live object's version supersedes that
object (it is applied and the object is removed from the object index) while
an object whose version equals an existing tombstone's version is skipped
(the replay state is unchanged). -/
theorem recoverSegment_minSuccessor_rule (s : MasterServer.RState) (ro : Object)
    (rt : ObjectTombstone) :
    (MasterServer.objApplies (s.objectMap (ro.table, ro.id))
        (s.tombstoneMap (ro.table, ro.id)) ro = true ↔
      (match s.objectMap (ro.table, ro.id) with
        | some l => l.version + 1
        | none =>
          match s.tombstoneMap (ro.table, ro.id) with
          | some t => t.objectVersion + 1
          | none => 0) ≤ ro.version)
    ∧ (MasterServer.tombApplies (s.objectMap (rt.tableId, rt.objectId))
        (s.tombstoneMap (rt.tableId, rt.objectId)) rt = true ↔
      (match s.objectMap (rt.tableId, rt.objectId) with
        | some l => l.version
        | none =>
          match s.tombstoneMap (rt.tableId, rt.objectId) with
          | some t => t.objectVersion + 1
          | none => 0) ≤ rt.objectVersion)
    ∧ (∀ l, s.objectMap (rt.tableId, rt.objectId) = some l →
        rt.objectVersion = l.version →
        MasterServer.tombApplies (s.objectMap (rt.tableId, rt.objectId))
          (s.tombstoneMap (rt.tableId, rt.objectId)) rt = true
        ∧ (MasterServer.recoverRecord s (.tomb rt)).objectMap
            (rt.tableId, rt.objectId) = none)
    ∧ (s.objectMap (ro.table, ro.id) = none →
        ∀ t, s.tombstoneMap (ro.table, ro.id) = some t →
        ro.version = t.objectVersion →
        MasterServer.objApplies (s.objectMap (ro.table, ro.id))
          (s.tombstoneMap (ro.table, ro.id)) ro = false
        ∧ MasterServer.recoverRecord s (.obj ro) = s) := by
  refine ⟨?_, ?_, ?_, ?_⟩
  · simp only [MasterServer.objApplies, MasterServer.objMinSuccessor, decide_eq_true_eq]
  · simp only [MasterServer.tombApplies, MasterServer.tombMinSuccessor, decide_eq_true_eq]
  · intro l hl hv
    have happ : MasterServer.tombApplies (s.objectMap (rt.tableId, rt.objectId))
        (s.tombstoneMap (rt.tableId, rt.objectId)) rt = true := by
      simp [MasterServer.tombApplies, MasterServer.tombMinSuccessor, hl, hv]
    refine ⟨happ, ?_⟩
    rw [MasterServer.recoverRecord_objectMap]
    simp [MasterServer.recKey, MasterServer.recStep, happ]
  · intro hno t ht hv
    have happ : MasterServer.objApplies (s.objectMap (ro.table, ro.id))
        (s.tombstoneMap (ro.table, ro.id)) ro = false := by
      simp [MasterServer.objApplies, MasterServer.objMinSuccessor, hno, ht, hv]
    refine ⟨happ, MasterServer.recoverRecord_skip s (.obj ro) ?_⟩
    simp [MasterServer.recKey, MasterServer.recStep, happ]

theorem recoverSegment_minSuccessor_rule_witness :
    (MasterServer.tombApplies (MasterServer.exObjState.objectMap (1, 2))
        (MasterServer.exObjState.tombstoneMap (1, 2)) MasterServer.exTomb = true
      ∧ (MasterServer.recoverRecord MasterServer.exObjState
          (.tomb MasterServer.exTomb)).objectMap (1, 2) = none)
    ∧ (MasterServer.objApplies (MasterServer.exTombState.objectMap (1, 2))
        (MasterServer.exTombState.tombstoneMap (1, 2)) MasterServer.exRecoverObj = false
      ∧ MasterServer.recoverRecord MasterServer.exTombState
          (.obj MasterServer.exRecoverObj) = MasterServer.exTombState) :=
  ⟨(recoverSegment_minSuccessor_rule MasterServer.exObjState MasterServer.exRecoverObj
      MasterServer.exTomb).2.2.1 MasterServer.exObj (by decide) (by decide),
   (recoverSegment_minSuccessor_rule MasterServer.exTombState MasterServer.exRecoverObj
      MasterServer.exTomb).2.2.2 (by decide) MasterServer.exTomb (by decide) (by decide)⟩

theorem MasterServer.disjoint_recoverRecord (s : RState) (r : LogRec)
    (h : DisjointIndexes s) : DisjointIndexes (recoverRecord s r) := by
  intro k
  rw [recoverRecord_objectMap, recoverRecord_tombstoneMap]
  by_cases hk : k = recKey r
  · rw [if_pos hk, if_pos hk]
    rcases r with o | t
    · by_cases ha : objApplies (s.objectMap (recKey (LogRec.obj o)))
          (s.tombstoneMap (recKey (LogRec.obj o))) o = true
      · simp [recStep, ha]
      · simpa [recStep, ha] using h (recKey (LogRec.obj o))
    · by_cases ha : tombApplies (s.objectMap (recKey (LogRec.tomb t)))
          (s.tombstoneMap (recKey (LogRec.tomb t))) t = true
      · simp [recStep, ha]
      · simpa [recStep, ha] using h (recKey (LogRec.tomb t))
  · rw [if_neg hk, if_neg hk]
    exact h k

theorem MasterServer.disjoint_recoverSegment (records : List LogRec) :
    ∀ s : RState, DisjointIndexes s → DisjointIndexes (recoverSegment s records) := by
  induction records with
  | nil => exact fun s h => h
  | cons r rs ih =>
    intro s h
    exact ih (recoverRecord s r) (disjoint_recoverRecord s r h)

/-- C9: throughout replay, no key simultaneously holds an object-index entry
and a recovery-tombstone entry: if the invariant holds on entry (where the
asserts at MasterServer.cc:591/634 check it) it holds again after processing
one record — an applied OBJ step removes the tombstone and an applied OBJTOMB
step removes the object — and hence after replaying any list of records. -/
theorem recovery_indexes_disjoint (s : MasterServer.RState) (r : MasterServer.LogRec)
    (records : List MasterServer.LogRec) (h : MasterServer.DisjointIndexes s) :
    MasterServer.DisjointIndexes (MasterServer.recoverRecord s r)
    ∧ MasterServer.DisjointIndexes (MasterServer.recoverSegment s records) :=
  ⟨MasterServer.disjoint_recoverRecord s r h,
   MasterServer.disjoint_recoverSegment records s h⟩

theorem MasterServer.recStep_obj (L : Option Object) (T : Option ObjectTombstone)
    (o : Object) :
    recStep (.obj o) (L, T) =
      if objMinSuccessor L T ≤ o.version then (some o, none) else (L, T) := by
  simp [recStep, objApplies]

theorem MasterServer.recStep_tomb (L : Option Object) (T : Option ObjectTombstone)
    (t : ObjectTombstone) :
    recStep (.tomb t) (L, T) =
      if tombMinSuccessor L T ≤ t.objectVersion then (none, some t) else (L, T) := by
  simp [recStep, tombApplies]

theorem MasterServer.minSuccessor_rel (L : Option Object) (T : Option ObjectTombstone) :
    tombMinSuccessor L T ≤ objMinSuccessor L T ∧
      objMinSuccessor L T ≤ tombMinSuccessor L T + 1 := by
  rcases L with _ | l <;> rcases T with _ | t <;>
    simp [objMinSuccessor, tombMinSuccessor]

theorem MasterServer.recStep_comm (r1 r2 : LogRec) (hk : recKey r1 = recKey r2)
    (hdup : DupCompat r1 r2) (p : Option Object × Option ObjectTombstone) :
    recStep r2 (recStep r1 p) = recStep r1 (recStep r2 p) := by
  obtain ⟨L, T⟩ := p
  have hrel := minSuccessor_rel L T
  rcases r1 with o1 | t1 <;> rcases r2 with o2 | t2
  · -- OBJ then OBJ
    simp only [recKey, Prod.mk.injEq] at hk
    have hd : o1.table = o2.table → o1.id = o2.id → o1.version = o2.version →
        o1 = o2 := hdup
    by_cases h1 : objMinSuccessor L T ≤ o1.version <;>
      by_cases h2 : objMinSuccessor L T ≤ o2.version
    · rw [recStep_obj L T o1, if_pos h1, recStep_obj L T o2, if_pos h2,
        recStep_obj (some o1) none o2, recStep_obj (some o2) none o1]
      simp only [objMinSuccessor]
      rcases Nat.lt_trichotomy o1.version o2.version with h12 | h12 | h12
      · rw [if_pos (by omega), if_neg (by omega)]
      · rw [if_neg (by omega), if_neg (by omega), hd hk.1 hk.2 h12]
      · rw [if_neg (by omega), if_pos (by omega)]
    · rw [recStep_obj L T o1, if_pos h1, recStep_obj L T o2, if_neg h2,
        recStep_obj L T o1, if_pos h1, recStep_obj (some o1) none o2]
      simp only [objMinSuccessor]
      rw [if_neg (by omega)]
    · rw [recStep_obj L T o1, if_neg h1, recStep_obj L T o2, if_pos h2,
        recStep_obj (some o2) none o1]
      simp only [objMinSuccessor]
      rw [if_neg (by omega)]
    · rw [recStep_obj L T o1, if_neg h1, recStep_obj L T o2, if_neg h2,
        recStep_obj L T o1, if_neg h1]
  · -- OBJ then OBJTOMB
    by_cases h1 : objMinSuccessor L T ≤ o1.version <;>
      by_cases h2 : tombMinSuccessor L T ≤ t2.objectVersion
    · rw [recStep_obj L T o1, if_pos h1, recStep_tomb L T t2, if_pos h2,
        recStep_tomb (some o1) none t2, recStep_obj none (some t2) o1]
      simp only [objMinSuccessor, tombMinSuccessor]
      by_cases hvw : o1.version ≤ t2.objectVersion
      · rw [if_pos hvw, if_neg (by omega)]
      · rw [if_neg hvw, if_pos (by omega)]
    · rw [recStep_obj L T o1, if_pos h1, recStep_tomb L T t2, if_neg h2,
        recStep_obj L T o1, if_pos h1, recStep_tomb (some o1) none t2]
      simp only [tombMinSuccessor]
      rw [if_neg (by omega)]
    · rw [recStep_obj L T o1, if_neg h1, recStep_tomb L T t2, if_pos h2,
        recStep_obj none (some t2) o1]
      simp only [objMinSuccessor]
      rw [if_neg (by omega)]
    · rw [recStep_obj L T o1, if_neg h1, recStep_tomb L T t2, if_neg h2,
        recStep_obj L T o1, if_neg h1]
  · -- OBJTOMB then OBJ
    by_cases h1 : tombMinSuccessor L T ≤ t1.objectVersion <;>
      by_cases h2 : objMinSuccessor L T ≤ o2.version
    · rw [recStep_tomb L T t1, if_pos h1, recStep_obj L T o2, if_pos h2,
        recStep_obj none (some t1) o2, recStep_tomb (some o2) none t1]
      simp only [objMinSuccessor, tombMinSuccessor]
      by_cases hvw : o2.version ≤ t1.objectVersion
      · rw [if_neg (by omega), if_pos hvw]
      · rw [if_pos (by omega), if_neg hvw]
    · rw [recStep_tomb L T t1, if_pos h1, recStep_obj L T o2, if_neg h2,
        recStep_tomb L T t1, if_pos h1, recStep_obj none (some t1) o2]
      simp only [objMinSuccessor]
      rw [if_neg (by omega)]
    · rw [recStep_tomb L T t1, if_neg h1, recStep_obj L T o2, if_pos h2,
        recStep_tomb (some o2) none t1]
      simp only [tombMinSuccessor]
      rw [if_neg (by omega)]
    · rw [recStep_tomb L T t1, if_neg h1, recStep_obj L T o2, if_neg h2,
        recStep_tomb L T t1, if_neg h1]
  · -- OBJTOMB then OBJTOMB
    simp only [recKey, Prod.mk.injEq] at hk
    have hd : t1.tableId = t2.tableId → t1.objectId = t2.objectId →
        t1.objectVersion = t2.objectVersion → t1 = t2 := hdup
    by_cases h1 : tombMinSuccessor L T ≤ t1.objectVersion <;>
      by_cases h2 : tombMinSuccessor L T ≤ t2.objectVersion
    · rw [recStep_tomb L T t1, if_pos h1, recStep_tomb L T t2, if_pos h2,
        recStep_tomb none (some t1) t2, recStep_tomb none (some t2) t1]
      simp only [tombMinSuccessor]
      rcases Nat.lt_trichotomy t1.objectVersion t2.objectVersion with h12 | h12 | h12
      · rw [if_pos (by omega), if_neg (by omega)]
      · rw [if_neg (by omega), if_neg (by omega), hd hk.1 hk.2 h12]
      · rw [if_neg (by omega), if_pos (by omega)]
    · rw [recStep_tomb L T t1, if_pos h1, recStep_tomb L T t2, if_neg h2,
        recStep_tomb L T t1, if_pos h1, recStep_tomb none (some t1) t2]
      simp only [tombMinSuccessor]
      rw [if_neg (by omega)]
    · rw [recStep_tomb L T t1, if_neg h1, recStep_tomb L T t2, if_pos h2,
        recStep_tomb none (some t2) t1]
      simp only [tombMinSuccessor]
      rw [if_neg (by omega)]
    · rw [recStep_tomb L T t1, if_neg h1, recStep_tomb L T t2, if_neg h2,
        recStep_tomb L T t1, if_neg h1]

theorem MasterServer.RState.ext' (s1 s2 : RState)
    (ho : ∀ k, s1.objectMap k = s2.objectMap k)
    (ht : ∀ k, s1.tombstoneMap k = s2.tombstoneMap k) : s1 = s2 := by
  obtain ⟨f1, g1⟩ := s1
  obtain ⟨f2, g2⟩ := s2
  simp only [RState.mk.injEq]
  exact ⟨funext ho, funext ht⟩

theorem MasterServer.recoverRecord_comm (r1 r2 : LogRec) (hdup : DupCompat r1 r2)
    (s : RState) :
    recoverRecord (recoverRecord s r1) r2 = recoverRecord (recoverRecord s r2) r1 := by
  by_cases hk : recKey r1 = recKey r2
  · apply RState.ext'
    · intro x
      simp only [recoverRecord_objectMap, recoverRecord_tombstoneMap, ← hk]
      by_cases hx : x = recKey r1
      · simp only [if_pos hx, if_true, Prod.mk.eta]
        rw [recStep_comm r1 r2 hk hdup]
      · simp only [if_neg hx]
    · intro x
      simp only [recoverRecord_objectMap, recoverRecord_tombstoneMap, ← hk]
      by_cases hx : x = recKey r1
      · simp only [if_pos hx, if_true, Prod.mk.eta]
        rw [recStep_comm r1 r2 hk hdup]
      · simp only [if_neg hx]
  · have hk2 : recKey r2 ≠ recKey r1 := fun h => hk h.symm
    apply RState.ext'
    · intro x
      simp only [recoverRecord_objectMap, recoverRecord_tombstoneMap, if_neg hk,
        if_neg hk2]
      by_cases hx1 : x = recKey r1 <;> by_cases hx2 : x = recKey r2
      · exact absurd (hx1.symm.trans hx2) hk
      · simp only [if_pos hx1, if_neg hx2]
      · simp only [if_pos hx2, if_neg hx1]
      · simp only [if_neg hx1, if_neg hx2]
    · intro x
      simp only [recoverRecord_objectMap, recoverRecord_tombstoneMap, if_neg hk,
        if_neg hk2]
      by_cases hx1 : x = recKey r1 <;> by_cases hx2 : x = recKey r2
      · exact absurd (hx1.symm.trans hx2) hk
      · simp only [if_pos hx1, if_neg hx2]
      · simp only [if_pos hx2, if_neg hx1]
      · simp only [if_neg hx1, if_neg hx2]

theorem MasterServer.replaySegments_eq_flatten (segments : List (List LogRec)) :
    ∀ s : RState, replaySegments s segments = segments.flatten.foldl recoverRecord s := by
  induction segments with
  | nil => intro s; rfl
  | cons seg rest ih =>
    intro s
    show replaySegments (recoverSegment s seg) rest = _
    rw [ih, List.flatten_cons, List.foldl_append]
    rfl

/-- C4 counterexample: two singleton segments carrying OBJ records for the
same key `(1, 1)` with the same version 5 but different payloads.  The two
segment orders are permutations of one another respecting segment
boundaries, yet replaying them from the empty initial state leaves different
objects in the object index (first record wins on a version tie), so the
claim as stated is false. -/
theorem replay_permutation_counterexample :
    [[MasterServer.LogRec.obj MasterServer.exObjA],
     [MasterServer.LogRec.obj MasterServer.exObjB]].Perm
      [[MasterServer.LogRec.obj MasterServer.exObjB],
       [MasterServer.LogRec.obj MasterServer.exObjA]]
    ∧ (MasterServer.replaySegments MasterServer.emptyRState
        [[MasterServer.LogRec.obj MasterServer.exObjA],
         [MasterServer.LogRec.obj MasterServer.exObjB]]).objectMap (1, 1) ≠
      (MasterServer.replaySegments MasterServer.emptyRState
        [[MasterServer.LogRec.obj MasterServer.exObjB],
         [MasterServer.LogRec.obj MasterServer.exObjA]]).objectMap (1, 1) := by
  constructor
  · exact List.Perm.swap _ _ _
  · decide

/-- C4 (amended): for every filtered segment stream in which any two OBJ
records with the same key and the same version are identical, and likewise
any two OBJTOMB records with the same key and the same objectVersion,
replaying any two permutations of the stream that respect segment boundaries
from the same initial state yields the same final contents of the object
index and the recovery-tombstone index.  (Without the no-divergent-duplicates
hypothesis the merge resolves version ties in favour of the record replayed
first, and the final contents can differ — see the counterexample.) -/
theorem replay_permutation_invariant (segments segments' : List (List MasterServer.LogRec))
    (hperm : segments.Perm segments')
    (hdup : ∀ r1 ∈ segments.flatten, ∀ r2 ∈ segments.flatten,
      MasterServer.DupCompat r1 r2)
    (s : MasterServer.RState) :
    MasterServer.replaySegments s segments = MasterServer.replaySegments s segments' := by
  rw [MasterServer.replaySegments_eq_flatten, MasterServer.replaySegments_eq_flatten]
  exact hperm.flatten.foldl_eq'
    (fun r1 h1 r2 h2 z => MasterServer.recoverRecord_comm r1 r2 (hdup r1 h1 r2 h2) z) s

theorem replay_permutation_invariant_witness :
    [[MasterServer.LogRec.obj MasterServer.exObjA],
     [MasterServer.LogRec.tomb MasterServer.exTomb7]].Perm
      [[MasterServer.LogRec.tomb MasterServer.exTomb7],
       [MasterServer.LogRec.obj MasterServer.exObjA]]
    ∧ (∀ r1 ∈ [[MasterServer.LogRec.obj MasterServer.exObjA],
        [MasterServer.LogRec.tomb MasterServer.exTomb7]].flatten,
       ∀ r2 ∈ [[MasterServer.LogRec.obj MasterServer.exObjA],
        [MasterServer.LogRec.tomb MasterServer.exTomb7]].flatten,
        MasterServer.DupCompat r1 r2)
    ∧ MasterServer.replaySegments MasterServer.emptyRState
        [[MasterServer.LogRec.obj MasterServer.exObjA],
         [MasterServer.LogRec.tomb MasterServer.exTomb7]] =
      MasterServer.replaySegments MasterServer.emptyRState
        [[MasterServer.LogRec.tomb MasterServer.exTomb7],
         [MasterServer.LogRec.obj MasterServer.exObjA]] :=
  ⟨by decide, by decide,
   replay_permutation_invariant _ _ (by decide) (by decide) MasterServer.emptyRState⟩

theorem recovery_indexes_disjoint_witness :
    MasterServer.DisjointIndexes MasterServer.emptyRState
    ∧ (MasterServer.DisjointIndexes
        (MasterServer.recoverRecord MasterServer.emptyRState (.obj MasterServer.exObj))
      ∧ MasterServer.DisjointIndexes
        (MasterServer.recoverSegment MasterServer.emptyRState
          [.obj MasterServer.exObj, .tomb MasterServer.exTomb])) :=
  ⟨fun _ => Or.inl rfl,
   recovery_indexes_disjoint MasterServer.emptyRState (.obj MasterServer.exObj)
     [.obj MasterServer.exObj, .tomb MasterServer.exTomb] (fun _ => Or.inl rfl)⟩

/-- C3: every accepted write that overwrites an existing object `prev`
performs exactly, in this order: `Log.free(prev)`, `Log.append` of a
tombstone carrying `prev`'s segment id (`Log::getSegmentId(prev)`), key and
version, `Log.append` of the new object record, and finally the index
publish via `replace`; in particular the free of the old entry happens
strictly before any append. -/
theorem storeData_overwrite_log_order (s : MasterServer.MState) (tableId id : Nat)
    (rules : RejectRules) (data : List Nat) (prev : Object)
    (htab : MasterServer.tabletExists s tableId id = true)
    (hprev : s.objectMap tableId id = some prev)
    (hacc : MasterServer.rejectOperation rules (some prev.version) = .ok) :
    (MasterServer.storeData s tableId id rules data).events =
      [.free prev,
       .appendTomb ⟨prev.table, prev.id, prev.version, s.segmentIdOf prev⟩,
       .appendObj ⟨id, tableId, prev.version + 1, MasterServer.checksumSentinel, data⟩,
       .replaceIdx tableId id
         ⟨id, tableId, prev.version + 1, MasterServer.checksumSentinel, data⟩]
    ∧ (MasterServer.storeData s tableId id rules data).state.objectMap tableId id =
      some ⟨id, tableId, prev.version + 1, MasterServer.checksumSentinel, data⟩ := by
  constructor <;> simp [MasterServer.storeData, htab, hprev, hacc]

theorem storeData_overwrite_log_order_witness :
    MasterServer.tabletExists MasterServer.exServState 1 5 = true
    ∧ ((MasterServer.storeData MasterServer.exServState 1 5 noRules [4]).events =
        [.free MasterServer.exPrev,
         .appendTomb ⟨MasterServer.exPrev.table, MasterServer.exPrev.id,
           MasterServer.exPrev.version,
           MasterServer.exServState.segmentIdOf MasterServer.exPrev⟩,
         .appendObj ⟨5, 1, MasterServer.exPrev.version + 1,
           MasterServer.checksumSentinel, [4]⟩,
         .replaceIdx 1 5 ⟨5, 1, MasterServer.exPrev.version + 1,
           MasterServer.checksumSentinel, [4]⟩]
      ∧ (MasterServer.storeData MasterServer.exServState 1 5 noRules
          [4]).state.objectMap 1 5 =
        some ⟨5, 1, MasterServer.exPrev.version + 1,
          MasterServer.checksumSentinel, [4]⟩) :=
  ⟨by decide,
   storeData_overwrite_log_order MasterServer.exServState 1 5 noRules [4]
     MasterServer.exPrev (by decide) (by decide) (by decide)⟩

/-- C6: at the failing input — a remove of the existing object `exRemPrev`,
which the log stores in segment 5, with indeterminate stack value 0 — the
accepted remove appends a tombstone whose `segmentId` is the indeterminate
value 0 read from the uninitialized `tomb.segmentId` member
(MasterServer.cc:691), not `Log::getSegmentId(prev)` = 5 as the claim (and
the spec, which flags this line as a source bug) requires. -/
theorem remove_tombstone_segmentId_bug :
    (MasterServer.remove MasterServer.exRemState 1 1 noRules 0).status = .ok
    ∧ (MasterServer.remove MasterServer.exRemState 1 1 noRules 0).events =
      [.free MasterServer.exRemPrev, .appendTomb ⟨1, 1, 3, 0⟩, .removeIdx 1 1]
    ∧ MasterServer.exRemState.segmentIdOf MasterServer.exRemPrev = 5 :=
  ⟨by decide, by decide, rfl⟩

theorem MasterServer.storeData_precondition_frame (s : MState) (tableId id : Nat)
    (rules : RejectRules) (data : List Nat)
    (h : isPreconditionError (storeData s tableId id rules data).status = true) :
    (storeData s tableId id rules data).events = []
    ∧ (storeData s tableId id rules data).state.objectMap = s.objectMap := by
  by_cases ht : tabletExists s tableId id = true
  · rcases hr : rejectOperation rules
        (Option.map Object.version (s.objectMap tableId id)) with
      _ | _ | _ | _ | _ | _ <;>
      simp_all [storeData, ht, hr, isPreconditionError]
  · simp [storeData, ht]

/-- C8: every read, write, create or remove that fails with a precondition
error (TableDoesntExist, ObjectDoesntExist, ObjectExists or WrongVersion)
performs no log operation — no append and no free — and no object-index
mutation: the operation's event list is empty and the object index is
exactly what it was. -/
theorem precondition_failure_no_side_effects (s : MasterServer.MState)
    (op : MasterServer.ServOp)
    (h : MasterServer.isPreconditionError (MasterServer.execOp s op).status = true) :
    (MasterServer.execOp s op).events = []
    ∧ (MasterServer.execOp s op).state.objectMap = s.objectMap := by
  rcases op with ⟨tableId, id, rules⟩ | ⟨tableId, id, rules, data⟩ |
    ⟨tableId, idAlloc, data⟩ | ⟨tableId, id, rules, uninit⟩
  · by_cases ht : MasterServer.tabletExists s tableId id = true
    · rcases ho : s.objectMap tableId id with _ | o <;>
        simp [MasterServer.execOp, MasterServer.read, ht, ho]
    · simp [MasterServer.execOp, MasterServer.read, ht]
  · exact MasterServer.storeData_precondition_frame s tableId id rules data h
  · by_cases ht : MasterServer.tabletExists s tableId 18446744073709551615 = true
    · have h' : MasterServer.isPreconditionError
          (MasterServer.storeData s tableId idAlloc
            ⟨false, true, false, false, 0⟩ data).status = true := by
        simpa [MasterServer.execOp, MasterServer.create, ht] using h
      simpa [MasterServer.execOp, MasterServer.create, ht] using
        MasterServer.storeData_precondition_frame s tableId idAlloc
          ⟨false, true, false, false, 0⟩ data h'
    · simp [MasterServer.execOp, MasterServer.create, ht]
  · by_cases ht : MasterServer.tabletExists s tableId id = true
    · rcases ho : s.objectMap tableId id with _ | o
      · simp [MasterServer.execOp, MasterServer.remove, ht, ho]
      · rcases hr : MasterServer.rejectOperation rules (some o.version) with
          _ | _ | _ | _ | _ | _ <;>
          simp_all [MasterServer.execOp, MasterServer.remove, ht, ho, hr,
            MasterServer.isPreconditionError]
    · simp [MasterServer.execOp, MasterServer.remove, ht]

theorem precondition_failure_no_side_effects_witness :
    MasterServer.isPreconditionError
      (MasterServer.execOp (MasterServer.initState MasterServer.exTablets (fun _ => 0))
        (.read 1 5 noRules)).status = true
    ∧ ((MasterServer.execOp (MasterServer.initState MasterServer.exTablets (fun _ => 0))
        (.read 1 5 noRules)).events = []
      ∧ (MasterServer.execOp (MasterServer.initState MasterServer.exTablets (fun _ => 0))
          (.read 1 5 noRules)).state.objectMap =
        (MasterServer.initState MasterServer.exTablets (fun _ => 0)).objectMap) :=
  ⟨by decide,
   precondition_failure_no_side_effects
     (MasterServer.initState MasterServer.exTablets (fun _ => 0))
     (.read 1 5 noRules) (by decide)⟩

theorem MasterServer.VersionsInv_init (tablets0 : List Tablet)
    (segOf : Object → Nat) :
    VersionsInv (initState tablets0 segOf) (fun _ _ => 0) := by
  intro t k
  exact ⟨fun o ho => by simp [initState] at ho, fun _ => Nat.one_pos⟩

theorem MasterServer.VersionsInv_storeData (s : MState) (m : Nat → Nat → Nat)
    (tableId id : Nat) (rules : RejectRules) (data : List Nat)
    (h : VersionsInv s m) :
    VersionsInv (storeData s tableId id rules data).state
      (ghostUpdate m tableId id (storeData s tableId id rules data)) := by
  by_cases ht : tabletExists s tableId id = true
  · rcases ho : s.objectMap tableId id with _ | prev
    · rcases hr : rejectOperation rules none with _ | _ | _ | _ | _ | _
      · -- accepted fresh write: version = AllocateVersion
        have hmap : (storeData s tableId id rules data).state.objectMap =
            fun tid oid =>
              if tid = tableId ∧ oid = id then
                some ⟨id, tableId, (s.tables tableId).nextVersion,
                  checksumSentinel, data⟩
              else s.objectMap tid oid := by
          simp [storeData, ht, ho, hr]
        have htabs : (storeData s tableId id rules data).state.tables =
            fun tid =>
              if tid = tableId then ⟨(s.tables tableId).nextVersion + 1⟩
              else s.tables tid := by
          simp [storeData, ht, ho, hr]
        have hgh : ghostUpdate m tableId id (storeData s tableId id rules data) =
            fun t k =>
              if t = tableId ∧ k = id then max (m t k) (s.tables tableId).nextVersion
              else m t k := by
          simp [storeData, ht, ho, hr, ghostUpdate]
        intro t k
        simp only [hmap, htabs, hgh]
        by_cases hk : t = tableId ∧ k = id
        · obtain ⟨h1, h2⟩ := hk
          subst h1
          subst h2
          have hb := (h t k).2 ho
          constructor
          · intro o hoeq
            rw [if_pos ⟨rfl, rfl⟩] at hoeq
            rw [if_pos ⟨rfl, rfl⟩]
            cases hoeq
            show (s.tables t).nextVersion = max (m t k) (s.tables t).nextVersion
            omega
          · intro hnone
            rw [if_pos ⟨rfl, rfl⟩] at hnone
            exact absurd hnone (by simp)
        · constructor
          · intro o hoeq
            rw [if_neg hk] at hoeq
            rw [if_neg hk]
            exact (h t k).1 o hoeq
          · intro hnone
            rw [if_neg hk] at hnone
            rw [if_neg hk]
            have hlt := (h t k).2 hnone
            by_cases htid : t = tableId
            · subst htid
              rw [if_pos rfl]
              show m t k < (s.tables t).nextVersion + 1
              omega
            · rw [if_neg htid]
              exact hlt
      all_goals
        exact by
          have hs : storeData s tableId id rules data =
              ⟨rejectOperation rules none, none, [], s⟩ := by
            simp [storeData, ht, ho, hr]
          rw [hs, hr]
          exact h
    · rcases hr : rejectOperation rules (some prev.version) with _ | _ | _ | _ | _ | _
      · -- accepted overwrite: version = prev.version + 1
        have hmap : (storeData s tableId id rules data).state.objectMap =
            fun tid oid =>
              if tid = tableId ∧ oid = id then
                some ⟨id, tableId, prev.version + 1, checksumSentinel, data⟩
              else s.objectMap tid oid := by
          simp [storeData, ht, ho, hr]
        have htabs : (storeData s tableId id rules data).state.tables = s.tables := by
          simp [storeData, ht, ho, hr]
        have hgh : ghostUpdate m tableId id (storeData s tableId id rules data) =
            fun t k =>
              if t = tableId ∧ k = id then max (m t k) (prev.version + 1)
              else m t k := by
          simp [storeData, ht, ho, hr, ghostUpdate]
        intro t k
        simp only [hmap, htabs, hgh]
        by_cases hk : t = tableId ∧ k = id
        · obtain ⟨h1, h2⟩ := hk
          subst h1
          subst h2
          have hb := (h t k).1 prev ho
          constructor
          · intro o hoeq
            rw [if_pos ⟨rfl, rfl⟩] at hoeq
            rw [if_pos ⟨rfl, rfl⟩]
            cases hoeq
            show prev.version + 1 = max (m t k) (prev.version + 1)
            omega
          · intro hnone
            rw [if_pos ⟨rfl, rfl⟩] at hnone
            exact absurd hnone (by simp)
        · constructor
          · intro o hoeq
            rw [if_neg hk] at hoeq
            rw [if_neg hk]
            exact (h t k).1 o hoeq
          · intro hnone
            rw [if_neg hk] at hnone
            rw [if_neg hk]
            exact (h t k).2 hnone
      all_goals
        exact by
          have hs : storeData s tableId id rules data =
              ⟨rejectOperation rules (some prev.version), some prev.version, [], s⟩ := by
            simp [storeData, ht, ho, hr]
          rw [hs, hr]
          exact h
  · have hs : storeData s tableId id rules data =
        ⟨.tableDoesntExist, none, [], s⟩ := by
      simp [storeData, ht]
    rw [hs]
    exact h

theorem MasterServer.VersionsInv_remove (s : MState) (m : Nat → Nat → Nat)
    (tableId id : Nat) (rules : RejectRules) (uninit : Nat)
    (h : VersionsInv s m) :
    VersionsInv (remove s tableId id rules uninit).state m := by
  by_cases ht : tabletExists s tableId id = true
  · rcases ho : s.objectMap tableId id with _ | o
    · have hs : remove s tableId id rules uninit =
          ⟨rejectOperation rules none, none, [], s⟩ := by
        simp [remove, ht, ho]
      rw [hs]
      exact h
    · rcases hr : rejectOperation rules (some o.version) with _ | _ | _ | _ | _ | _
      · have hmap : (remove s tableId id rules uninit).state.objectMap =
            fun tid oid =>
              if tid = tableId ∧ oid = id then none
              else s.objectMap tid oid := by
          simp [remove, ht, ho, hr]
        have htabs : (remove s tableId id rules uninit).state.tables =
            fun tid =>
              if tid = tableId then
                Table.mk (max (s.tables tableId).nextVersion (o.version + 1))
              else s.tables tid := by
          simp [remove, ht, ho, hr]
        intro t k
        simp only [hmap, htabs]
        constructor
        · intro ob hobeq
          by_cases hk : t = tableId ∧ k = id
          · rw [if_pos hk] at hobeq
            exact absurd hobeq (by simp)
          · rw [if_neg hk] at hobeq
            exact (h t k).1 ob hobeq
        · intro hnone
          by_cases hk : t = tableId ∧ k = id
          · obtain ⟨h1, h2⟩ := hk
            subst h1
            subst h2
            have hv := (h t k).1 o ho
            rw [if_pos rfl]
            show m t k < max (s.tables t).nextVersion (o.version + 1)
            omega
          · rw [if_neg hk] at hnone
            have hlt := (h t k).2 hnone
            by_cases htid : t = tableId
            · subst htid
              rw [if_pos rfl]
              show m t k < max (s.tables t).nextVersion (o.version + 1)
              omega
            · rw [if_neg htid]
              exact hlt
      all_goals
        exact by
          have hs : remove s tableId id rules uninit =
              ⟨rejectOperation rules (some o.version), some o.version, [], s⟩ := by
            simp [remove, ht, ho, hr]
          rw [hs]
          exact h
  · have hs : remove s tableId id rules uninit =
        ⟨.tableDoesntExist, none, [], s⟩ := by
      simp [remove, ht]
    rw [hs]
    exact h

theorem MasterServer.read_state_eq (s : MState) (tableId id : Nat)
    (rules : RejectRules) : (read s tableId id rules).state = s := by
  unfold read
  split
  · split <;> rfl
  · rfl

theorem MasterServer.VersionsInv_create (s : MState) (m : Nat → Nat → Nat)
    (tableId idAlloc : Nat) (data : List Nat) (h : VersionsInv s m) :
    VersionsInv (create s tableId idAlloc data).state
      (ghostUpdate m tableId idAlloc (create s tableId idAlloc data)) := by
  by_cases ht : tabletExists s tableId 18446744073709551615 = true
  · have hs : create s tableId idAlloc data =
        storeData s tableId idAlloc ⟨false, true, false, false, 0⟩ data := by
      simp [create, ht]
    rw [hs]
    exact VersionsInv_storeData s m tableId idAlloc _ data h
  · have hs : create s tableId idAlloc data = ⟨.tableDoesntExist, none, [], s⟩ := by
      simp [create, ht]
    rw [hs]
    exact h

theorem MasterServer.VersionsInv_step (s : MState) (m : Nat → Nat → Nat)
    (op : ServOp) (h : VersionsInv s m) :
    VersionsInv (execOp s op).state (ghostStep s m op) := by
  rcases op with ⟨tableId, id, rules⟩ | ⟨tableId, id, rules, data⟩ |
    ⟨tableId, idAlloc, data⟩ | ⟨tableId, id, rules, uninit⟩
  · show VersionsInv (read s tableId id rules).state m
    rw [read_state_eq]
    exact h
  · exact VersionsInv_storeData s m tableId id rules data h
  · exact VersionsInv_create s m tableId idAlloc data h
  · exact VersionsInv_remove s m tableId id rules uninit h

theorem MasterServer.VersionsInv_run (ops : List ServOp) :
    ∀ (s : MState) (m : Nat → Nat → Nat), VersionsInv s m →
      VersionsInv (runOps s m ops).1 (runOps s m ops).2 := by
  induction ops with
  | nil => exact fun s m h => h
  | cons op ops ih => exact fun s m h => ih _ _ (VersionsInv_step s m op h)

/-- C7: from any state reachable by a run of client operations, an accepted
write (storeData) at key `(tableId, id)` returns version `prev.version + 1`
when the index held `prev` and `Table::AllocateVersion()` — the table's next
version counter — otherwise; the new object record published in the index
carries that same version, and it strictly exceeds every version previously
observed for the key on this master (the ghost bound of the run). -/
theorem storeData_version_monotonic (tablets0 : List MasterServer.Tablet)
    (segOf : Object → Nat) (ops : List MasterServer.ServOp) (tableId id : Nat)
    (rules : RejectRules) (data : List Nat)
    (hok : (MasterServer.storeData
        (MasterServer.runOps (MasterServer.initState tablets0 segOf)
          (fun _ _ => 0) ops).1 tableId id rules data).status = .ok) :
    ∃ v,
      (MasterServer.storeData
        (MasterServer.runOps (MasterServer.initState tablets0 segOf)
          (fun _ _ => 0) ops).1 tableId id rules data).version = some v
      ∧ v = (match (MasterServer.runOps (MasterServer.initState tablets0 segOf)
            (fun _ _ => 0) ops).1.objectMap tableId id with
          | some prev => prev.version + 1
          | none => ((MasterServer.runOps (MasterServer.initState tablets0 segOf)
              (fun _ _ => 0) ops).1.tables tableId).nextVersion)
      ∧ (MasterServer.storeData
          (MasterServer.runOps (MasterServer.initState tablets0 segOf)
            (fun _ _ => 0) ops).1 tableId id rules data).state.objectMap tableId id =
        some ⟨id, tableId, v, MasterServer.checksumSentinel, data⟩
      ∧ (MasterServer.runOps (MasterServer.initState tablets0 segOf)
          (fun _ _ => 0) ops).2 tableId id < v := by
  have hinv := MasterServer.VersionsInv_run ops (MasterServer.initState tablets0 segOf)
    (fun _ _ => 0) (MasterServer.VersionsInv_init tablets0 segOf)
  by_cases ht : MasterServer.tabletExists
      (MasterServer.runOps (MasterServer.initState tablets0 segOf)
        (fun _ _ => 0) ops).1 tableId id = true
  · rcases ho : (MasterServer.runOps (MasterServer.initState tablets0 segOf)
        (fun _ _ => 0) ops).1.objectMap tableId id with _ | prev
    · rcases hr : MasterServer.rejectOperation rules none with _ | _ | _ | _ | _ | _
      · refine ⟨((MasterServer.runOps (MasterServer.initState tablets0 segOf)
            (fun _ _ => 0) ops).1.tables tableId).nextVersion, ?_, ?_, ?_, ?_⟩
        · simp [MasterServer.storeData, ht, ho, hr]
        · rfl
        · simp [MasterServer.storeData, ht, ho, hr]
        · exact (hinv tableId id).2 ho
      all_goals
        exact absurd hok (by simp [MasterServer.storeData, ht, ho, hr])
    · rcases hr : MasterServer.rejectOperation rules (some prev.version) with
        _ | _ | _ | _ | _ | _
      · refine ⟨prev.version + 1, ?_, ?_, ?_, ?_⟩
        · simp [MasterServer.storeData, ht, ho, hr]
        · rfl
        · simp [MasterServer.storeData, ht, ho, hr]
        · have hv := (hinv tableId id).1 prev ho
          omega
      all_goals
        exact absurd hok (by simp [MasterServer.storeData, ht, ho, hr])
  · exact absurd hok (by simp [MasterServer.storeData, ht])

theorem storeData_version_monotonic_witness :
    (MasterServer.storeData
      (MasterServer.runOps (MasterServer.initState MasterServer.exTablets (fun _ => 0))
        (fun _ _ => 0) []).1 1 5 noRules []).status = .ok
    ∧ ∃ v,
      (MasterServer.storeData
        (MasterServer.runOps (MasterServer.initState MasterServer.exTablets (fun _ => 0))
          (fun _ _ => 0) []).1 1 5 noRules []).version = some v
      ∧ v = (match (MasterServer.runOps
            (MasterServer.initState MasterServer.exTablets (fun _ => 0))
            (fun _ _ => 0) []).1.objectMap 1 5 with
          | some prev => prev.version + 1
          | none => ((MasterServer.runOps
              (MasterServer.initState MasterServer.exTablets (fun _ => 0))
              (fun _ _ => 0) []).1.tables 1).nextVersion)
      ∧ (MasterServer.storeData
          (MasterServer.runOps (MasterServer.initState MasterServer.exTablets (fun _ => 0))
            (fun _ _ => 0) []).1 1 5 noRules []).state.objectMap 1 5 =
        some ⟨5, 1, v, MasterServer.checksumSentinel, []⟩
      ∧ (MasterServer.runOps (MasterServer.initState MasterServer.exTablets (fun _ => 0))
          (fun _ _ => 0) []).2 1 5 < v :=
  ⟨by decide,
   storeData_version_monotonic MasterServer.exTablets (fun _ => 0) [] 1 5 noRules []
     (by decide)⟩

/-- C5: at the failing input — segment 42 backed up on backup-a and
backup-b, where backup-a (the locator the chooser hands out first) raises a
transport error — the recovery fetch raises SegmentRecoveryFailed
immediately (the catch clauses at MasterServer.cc:397-407), even though
marking backup-a down would leave backup-b available from the chooser for
segment 42; the retry of the next backup that the claim (and the code's own
log messages and TODO comments) describe never happens. -/
theorem recover_fetch_failure_behavior :
    MasterServer.fetchSegment [(42, "backup-a"), (42, "backup-b")] 42 0
      MasterServer.exBackups = .error .segmentRecoveryFailed
    ∧ MasterServer.exBackups "backup-a" = .error .transport
    ∧ SegmentLocatorChooser.get
        (SegmentLocatorChooser.markAsDown [(42, "backup-a"), (42, "backup-b")]
          42 "backup-a") 42 0 = .ok "backup-b"
    ∧ MasterServer.exBackups "backup-b" = .ok [1, 2] :=
  ⟨rfl, rfl, rfl, rfl⟩

theorem MasterServer.mapLookup_insert_self (mp : List (Nat × Nat)) (k v : Nat) :
    mapLookup (mapInsert mp k v) k = some v := by
  induction mp with
  | nil => simp [mapInsert, mapLookup]
  | cons kv rest ih =>
    by_cases hk : kv.1 = k
    · simp [mapInsert, mapLookup, hk]
    · simp [mapInsert, mapLookup, hk, ih]

theorem MasterServer.mapLookup_insert_ne (mp : List (Nat × Nat)) (k v k' : Nat)
    (h : k' ≠ k) : mapLookup (mapInsert mp k v) k' = mapLookup mp k' := by
  have h' : ¬ k = k' := fun he => h he.symm
  induction mp with
  | nil => simp [mapInsert, mapLookup, h']
  | cons kv rest ih =>
    by_cases hk : kv.1 = k
    · simp only [mapInsert, if_pos hk, mapLookup]
      rw [if_neg h', if_neg (show ¬ kv.1 = k' by rw [hk]; exact h')]
    · simp only [mapInsert, if_neg hk, mapLookup]
      rw [ih]

theorem MasterServer.mapLookup_mem :
    ∀ (mp : List (Nat × Nat)) (k v : Nat), mapLookup mp k = some v → (k, v) ∈ mp
  | [], _, _, h => by cases h
  | kv :: rest, k, v, h => by
    obtain ⟨a, b⟩ := kv
    by_cases hk : a = k
    · simp only [mapLookup, if_pos hk] at h
      injection h with hv
      subst hk
      subst hv
      exact List.mem_cons_self _ _
    · simp only [mapLookup, if_neg hk] at h
      exact List.mem_cons_of_mem _ (mapLookup_mem rest k v h)

theorem MasterServer.mem_mapInsert :
    ∀ (mp : List (Nat × Nat)) (k v : Nat) (kv : Nat × Nat),
      kv ∈ mapInsert mp k v → kv = (k, v) ∨ kv ∈ mp
  | [], k, v, kv, h => by
    simp only [mapInsert] at h
    exact Or.inl (List.mem_singleton.mp h)
  | kv0 :: rest, k, v, kv, h => by
    by_cases hk : kv0.1 = k
    · simp only [mapInsert, if_pos hk] at h
      rcases List.mem_cons.mp h with h1 | hr
      · exact Or.inl h1
      · exact Or.inr (List.mem_cons_of_mem _ hr)
    · simp only [mapInsert, if_neg hk] at h
      rcases List.mem_cons.mp h with h1 | hr
      · exact Or.inr (h1 ▸ List.mem_cons_self _ _)
      · rcases mem_mapInsert rest k v kv hr with h1 | h2
        · exact Or.inl h1
        · exact Or.inr (List.mem_cons_of_mem _ h2)

theorem MasterServer.buildTables_lookup_aux :
    ∀ (old : List TabletT) (mp : List (Nat × Nat)) (k v : Nat),
      (∀ t ∈ old, t.table_id % U32 = k → t.user_data = v) →
      (mapLookup mp k = some v ∨ ∃ t ∈ old, t.table_id % U32 = k) →
      mapLookup
        (old.foldl (fun mp t => mapInsert mp (t.table_id % U32) t.user_data) mp) k =
        some v
  | [], mp, k, v, _, hbase => by
    rcases hbase with h | ⟨t, ht, _⟩
    · exact h
    · cases ht
  | t0 :: rest, mp, k, v, hc, hbase => by
    show mapLookup
      (rest.foldl (fun mp t => mapInsert mp (t.table_id % U32) t.user_data)
        (mapInsert mp (t0.table_id % U32) t0.user_data)) k = some v
    by_cases hk : t0.table_id % U32 = k
    · refine buildTables_lookup_aux rest _ k v
        (fun t ht h => hc t (List.mem_cons_of_mem _ ht) h) (Or.inl ?_)
      rw [hk, hc t0 (List.mem_cons_self _ _) hk]
      exact mapLookup_insert_self mp k v
    · have hc' : ∀ t ∈ rest, t.table_id % U32 = k → t.user_data = v :=
        fun t ht h => hc t (List.mem_cons_of_mem _ ht) h
      rcases hbase with h | ⟨t, ht, htk⟩
      · refine buildTables_lookup_aux rest _ k v hc' (Or.inl ?_)
        rw [mapLookup_insert_ne mp _ _ k (fun he => hk he.symm)]
        exact h
      · rcases List.mem_cons.mp ht with h1 | htr
        · exact absurd (h1 ▸ htk) hk
        · exact buildTables_lookup_aux rest _ k v hc' (Or.inr ⟨t, htr, htk⟩)

theorem MasterServer.buildTables_lookup (old : List TabletT) (t : TabletT)
    (ht : t ∈ old)
    (hc : ∀ t' ∈ old, t'.table_id % U32 = t.table_id % U32 →
      t'.user_data = t.user_data) :
    mapLookup (buildTables old) (t.table_id % U32) = some t.user_data :=
  buildTables_lookup_aux old [] _ _ hc (Or.inr ⟨t, ht, rfl⟩)

theorem MasterServer.buildTables_mem_aux :
    ∀ (old : List TabletT) (mp : List (Nat × Nat)) (kv : Nat × Nat),
      kv ∈ old.foldl (fun mp t => mapInsert mp (t.table_id % U32) t.user_data) mp →
      kv ∈ mp ∨ ∃ t ∈ old, kv.1 = t.table_id % U32 ∧ kv.2 = t.user_data
  | [], _, _, h => Or.inl h
  | t0 :: rest, mp, kv, h => by
    rcases buildTables_mem_aux rest _ kv h with h1 | ⟨t, ht, hk⟩
    · rcases mem_mapInsert mp _ _ kv h1 with h2 | h2
      · exact Or.inr ⟨t0, List.mem_cons_self _ _, by rw [h2], by rw [h2]⟩
      · exact Or.inl h2
    · exact Or.inr ⟨t, List.mem_cons_of_mem _ ht, hk⟩

theorem MasterServer.buildTables_mem (old : List TabletT) (kv : Nat × Nat)
    (h : kv ∈ buildTables old) :
    ∃ t ∈ old, kv.1 = t.table_id % U32 ∧ kv.2 = t.user_data := by
  rcases buildTables_mem_aux old [] kv h with h1 | h2
  · cases h1
  · exact h2

theorem MasterServer.deleteOldTables_none :
    ∀ (tables : List (Nat × Nat)) (newT : List TabletT)
      (h : Nat → Option TableC) (tok : Nat),
      h tok = none → deleteOldTables tables newT h tok = none
  | [], _, _, _, hn => hn
  | kv :: rest, newT, h, tok, hn => by
    show deleteOldTables rest newT
      (if (newT.any fun nt => decide (kv.1 = nt.table_id)) = true then h
       else Function.update h kv.2 none) tok = none
    by_cases ha : (newT.any fun nt => decide (kv.1 = nt.table_id)) = true
    · rw [if_pos ha]
      exact deleteOldTables_none rest newT h tok hn
    · rw [if_neg ha]
      refine deleteOldTables_none rest newT _ tok ?_
      by_cases he : tok = kv.2
      · subst he
        exact Function.update_same _ _ _
      · rw [Function.update_noteq he]
        exact hn

theorem MasterServer.deleteOldTables_deletes :
    ∀ (tables : List (Nat × Nat)) (newT : List TabletT)
      (h : Nat → Option TableC) (k tok : Nat),
      (k, tok) ∈ tables → (∀ nt ∈ newT, ¬ k = nt.table_id) →
      deleteOldTables tables newT h tok = none
  | [], _, _, _, _, hmem, _ => absurd hmem (List.not_mem_nil _)
  | kv :: rest, newT, h, k, tok, hmem, hnone => by
    show deleteOldTables rest newT
      (if (newT.any fun nt => decide (kv.1 = nt.table_id)) = true then h
       else Function.update h kv.2 none) tok = none
    rcases List.mem_cons.mp hmem with heq | hr
    · obtain rfl := heq.symm
      have ha : (newT.any fun nt => decide (k = nt.table_id)) = false := by
        simp only [List.any_eq_false, decide_eq_true_eq]
        exact hnone
      rw [if_neg (by simp [ha])]
      exact deleteOldTables_none rest newT _ tok (Function.update_same _ _ _)
    · by_cases ha : (newT.any fun nt => decide (kv.1 = nt.table_id)) = true
      · rw [if_pos ha]
        exact deleteOldTables_deletes rest newT h k tok hr hnone
      · rw [if_neg ha]
        exact deleteOldTables_deletes rest newT _ k tok hr hnone

theorem MasterServer.deleteOldTables_preserves :
    ∀ (tables : List (Nat × Nat)) (newT : List TabletT)
      (h : Nat → Option TableC) (tok : Nat),
      (∀ kv ∈ tables, kv.2 = tok → ∃ nt ∈ newT, kv.1 = nt.table_id) →
      deleteOldTables tables newT h tok = h tok
  | [], _, _, _, _ => rfl
  | kv :: rest, newT, h, tok, hall => by
    show deleteOldTables rest newT
      (if (newT.any fun nt => decide (kv.1 = nt.table_id)) = true then h
       else Function.update h kv.2 none) tok = h tok
    have hall' : ∀ kv2 ∈ rest, kv2.2 = tok → ∃ nt ∈ newT, kv2.1 = nt.table_id :=
      fun kv2 hm => hall kv2 (List.mem_cons_of_mem _ hm)
    by_cases ha : (newT.any fun nt => decide (kv.1 = nt.table_id)) = true
    · rw [if_pos ha]
      exact deleteOldTables_preserves rest newT h tok hall'
    · rw [if_neg ha]
      have hne : kv.2 ≠ tok := by
        intro he
        obtain ⟨nt, hnt, hid⟩ := hall kv (List.mem_cons_self _ _) he
        exact ha (List.any_eq_true.mpr ⟨nt, hnt, by simp [hid]⟩)
      rw [deleteOldTables_preserves rest newT _ tok hall',
        Function.update_noteq (Ne.symm hne)]

theorem MasterServer.assign_lookup_mono :
    ∀ (rest : List TabletT) (tables : List (Nat × Nat))
      (heap : Nat → Option TableC) (next k v : Nat),
      mapLookup tables k = some v →
      mapLookup (assignTables rest tables heap next).2.1 k = some v
  | [], _, _, _, _, _, h => h
  | nt :: rest, tables, heap, next, k, v, h => by
    cases hl : mapLookup tables (nt.table_id % U32) with
    | some tok =>
      simp only [assignTables, hl]
      exact assign_lookup_mono rest tables heap next k v h
    | none =>
      simp only [assignTables, hl]
      refine assign_lookup_mono rest _ _ _ k v ?_
      have hkne : k ≠ nt.table_id % U32 := by
        intro he
        rw [he, hl] at h
        cases h
      rw [mapLookup_insert_ne tables _ _ k hkne]
      exact h

theorem MasterServer.assign_next_mono :
    ∀ (rest : List TabletT) (tables : List (Nat × Nat))
      (heap : Nat → Option TableC) (next : Nat),
      next ≤ (assignTables rest tables heap next).2.2.2
  | [], _, _, _ => le_refl _
  | nt :: rest, tables, heap, next => by
    cases hl : mapLookup tables (nt.table_id % U32) with
    | some tok =>
      simpa only [assignTables, hl] using assign_next_mono rest tables heap next
    | none =>
      simp only [assignTables, hl]
      exact le_trans (Nat.le_succ next) (assign_next_mono rest _ _ (next + 1))

theorem MasterServer.assign_heap_lt :
    ∀ (rest : List TabletT) (tables : List (Nat × Nat))
      (heap : Nat → Option TableC) (next tok : Nat), tok < next →
      (assignTables rest tables heap next).2.2.1 tok = heap tok
  | [], _, _, _, _, _ => rfl
  | nt :: rest, tables, heap, next, tok, hlt => by
    cases hl : mapLookup tables (nt.table_id % U32) with
    | some t =>
      simp only [assignTables, hl]
      exact assign_heap_lt rest tables heap next tok hlt
    | none =>
      simp only [assignTables, hl]
      rw [assign_heap_lt rest _ _ (next + 1) tok (by omega)]
      exact Function.update_noteq (by omega) _ _

theorem MasterServer.assign_tablets_lookup :
    ∀ (rest : List TabletT) (tables : List (Nat × Nat))
      (heap : Nat → Option TableC) (next : Nat),
      ∀ nt' ∈ (assignTables rest tables heap next).1,
        mapLookup (assignTables rest tables heap next).2.1 (nt'.table_id % U32) =
          some nt'.user_data
  | [], _, _, _ => by
    intro nt' h
    cases h
  | nt :: rest, tables, heap, next => by
    intro nt' hmem
    cases hl : mapLookup tables (nt.table_id % U32) with
    | some tok =>
      simp only [assignTables, hl] at hmem ⊢
      rcases List.mem_cons.mp hmem with h1 | h2
      · subst h1
        exact assign_lookup_mono rest tables heap next _ tok hl
      · exact assign_tablets_lookup rest tables heap next nt' h2
    | none =>
      simp only [assignTables, hl] at hmem ⊢
      rcases List.mem_cons.mp hmem with h1 | h2
      · subst h1
        exact assign_lookup_mono rest _ _ _ _ next
          (mapLookup_insert_self tables _ next)
      · exact assign_tablets_lookup rest _ _ _ nt' h2

theorem MasterServer.assign_mem_of_lookup :
    ∀ (rest : List TabletT) (tables : List (Nat × Nat))
      (heap : Nat → Option TableC) (next : Nat) (nt : TabletT) (tok : Nat),
      nt ∈ rest → mapLookup tables (nt.table_id % U32) = some tok →
      (⟨nt.table_id, tok⟩ : TabletT) ∈ (assignTables rest tables heap next).1
  | [], _, _, _, nt, tok, h, _ => absurd h (List.not_mem_nil _)
  | nt0 :: rest, tables, heap, next, nt, tok, hmem, hl => by
    rcases List.mem_cons.mp hmem with h1 | h2
    · subst h1
      simp only [assignTables, hl]
      exact List.mem_cons_self _ _
    · cases hl0 : mapLookup tables (nt0.table_id % U32) with
      | some tok0 =>
        simp only [assignTables, hl0]
        exact List.mem_cons_of_mem _
          (assign_mem_of_lookup rest tables heap next nt tok h2 hl)
      | none =>
        simp only [assignTables, hl0]
        refine List.mem_cons_of_mem _
          (assign_mem_of_lookup rest _ _ _ nt tok h2 ?_)
        have hne : nt.table_id % U32 ≠ nt0.table_id % U32 := by
          intro he
          rw [he, hl0] at hl
          cases hl
        rw [mapLookup_insert_ne tables _ _ _ hne]
        exact hl

theorem MasterServer.assign_mem :
    ∀ (rest : List TabletT) (tables : List (Nat × Nat))
      (heap : Nat → Option TableC) (next : Nat) (nt : TabletT),
      nt ∈ rest →
      ∃ ud, (⟨nt.table_id, ud⟩ : TabletT) ∈ (assignTables rest tables heap next).1
  | [], _, _, _, _, h => absurd h (List.not_mem_nil _)
  | nt0 :: rest, tables, heap, next, nt, hmem => by
    rcases List.mem_cons.mp hmem with h1 | h2
    · subst h1
      cases hl : mapLookup tables (nt.table_id % U32) with
      | some tok =>
        refine ⟨tok, ?_⟩
        simp only [assignTables, hl]
        exact List.mem_cons_self _ _
      | none =>
        refine ⟨next, ?_⟩
        simp only [assignTables, hl]
        exact List.mem_cons_self _ _
    · cases hl : mapLookup tables (nt0.table_id % U32) with
      | some tok =>
        obtain ⟨ud, hud⟩ := assign_mem rest tables heap next nt h2
        refine ⟨ud, ?_⟩
        simp only [assignTables, hl]
        exact List.mem_cons_of_mem _ hud
      | none =>
        obtain ⟨ud, hud⟩ := assign_mem rest
          (mapInsert tables (nt0.table_id % U32) next)
          (Function.update heap next (some ⟨nt0.table_id, 0, 1⟩)) (next + 1) nt h2
        refine ⟨ud, ?_⟩
        simp only [assignTables, hl]
        exact List.mem_cons_of_mem _ hud

theorem MasterServer.assign_lookup_src :
    ∀ (rest : List TabletT) (tables : List (Nat × Nat))
      (heap : Nat → Option TableC) (next k tok : Nat),
      mapLookup (assignTables rest tables heap next).2.1 k = some tok →
      mapLookup tables k = some tok ∨
        (next ≤ tok ∧ ∃ nt0 ∈ rest, nt0.table_id % U32 = k ∧
          (assignTables rest tables heap next).2.2.1 tok = some ⟨nt0.table_id, 0, 1⟩)
  | [], _, _, _, _, _, h => Or.inl h
  | nt :: rest, tables, heap, next, k, tok, h => by
    cases hl : mapLookup tables (nt.table_id % U32) with
    | some tok0 =>
      simp only [assignTables, hl] at h ⊢
      rcases assign_lookup_src rest tables heap next k tok h with
        h1 | ⟨h2, nt0, hm, hk, hh⟩
      · exact Or.inl h1
      · exact Or.inr ⟨h2, nt0, List.mem_cons_of_mem _ hm, hk, hh⟩
    | none =>
      simp only [assignTables, hl] at h ⊢
      rcases assign_lookup_src rest _ _ _ k tok h with
        h1 | ⟨h2, nt0, hm, hk, hh⟩
      · by_cases hke : k = nt.table_id % U32
        · subst hke
          rw [mapLookup_insert_self tables _ next] at h1
          injection h1 with he
          subst he
          refine Or.inr ⟨le_refl _, nt, List.mem_cons_self _ _, rfl, ?_⟩
          rw [assign_heap_lt rest _ _ (next + 1) next (Nat.lt_succ_self _)]
          exact Function.update_same _ _ _
        · rw [mapLookup_insert_ne tables _ _ _ hke] at h1
          exact Or.inl h1
      · exact Or.inr ⟨by omega, nt0, List.mem_cons_of_mem _ hm, hk, hh⟩

/-- C10 counterexample: the old state serves table id `2^32` with its Table
at token 7, and the new tablet set names the very same table id `2^32`.
Because `setTablets` keys its temporary `std::map` by `uint32_t`, the old
tablet is recorded under truncated key 0, the deletion loop compares that
key against the untruncated new id (`0 == 2^32` fails) and deletes the
Table, and the new tablet is then handed the stale token 7 whose heap entry
is gone — so a table id present in both the old and the new tablet sets does
not keep its Table, contradicting the claim as stated. -/
theorem setTablets_truncation_counterexample :
    MasterServer.exTabState.tablets = [⟨4294967296, 7⟩]
    ∧ MasterServer.exNewTablets = [⟨4294967296, 0⟩]
    ∧ MasterServer.exTabState.heap 7 = some ⟨4294967296, 3, 9⟩
    ∧ (MasterServer.setTablets MasterServer.exTabState
        MasterServer.exNewTablets).tablets = [⟨4294967296, 7⟩]
    ∧ (MasterServer.setTablets MasterServer.exTabState
        MasterServer.exNewTablets).heap 7 = none :=
  ⟨rfl, rfl, rfl, rfl, rfl⟩

/-- C10 (amended): for table ids below `2^32` (the code narrows ids to
`uint32_t` when keying its temporary map, so larger ids are corrupted — see
the counterexample) and a well-formed initial state — one Table per table
id, tokens injective across table ids, and all live tokens below the
allocator — `setTablets` behaves as claimed: a table id present in both the
old and the new tablet sets keeps its Table object (same token, heap entry
untouched, so its counters are preserved); a table id present only in the
old set has its Table deleted; a table id present only in the new set
receives a freshly allocated Table with initial counters; and afterwards
every active tablet's `user_data` points to the single Table for its table
id. -/
theorem setTablets_table_preservation (s : MasterServer.TabState)
    (newTablets : List MasterServer.TabletT)
    (hltOld : ∀ t ∈ s.tablets, t.table_id < MasterServer.U32)
    (hltNew : ∀ t ∈ newTablets, t.table_id < MasterServer.U32)
    (hcons : ∀ t1 ∈ s.tablets, ∀ t2 ∈ s.tablets,
      t1.table_id = t2.table_id → t1.user_data = t2.user_data)
    (hinj : ∀ t1 ∈ s.tablets, ∀ t2 ∈ s.tablets,
      t1.user_data = t2.user_data → t1.table_id = t2.table_id)
    (hfresh : ∀ t ∈ s.tablets, t.user_data < s.nextToken) :
    (∀ told ∈ s.tablets, ∀ tn ∈ newTablets, told.table_id = tn.table_id →
      (⟨tn.table_id, told.user_data⟩ : MasterServer.TabletT) ∈
        (MasterServer.setTablets s newTablets).tablets
      ∧ (MasterServer.setTablets s newTablets).heap told.user_data =
        s.heap told.user_data)
    ∧ (∀ told ∈ s.tablets, (∀ tn ∈ newTablets, tn.table_id ≠ told.table_id) →
      (MasterServer.setTablets s newTablets).heap told.user_data = none)
    ∧ (∀ tn ∈ newTablets, (∀ told ∈ s.tablets, told.table_id ≠ tn.table_id) →
      ∃ ud, (⟨tn.table_id, ud⟩ : MasterServer.TabletT) ∈
          (MasterServer.setTablets s newTablets).tablets
        ∧ s.nextToken ≤ ud
        ∧ (MasterServer.setTablets s newTablets).heap ud =
          some ⟨tn.table_id, 0, 1⟩)
    ∧ (∀ t1 ∈ (MasterServer.setTablets s newTablets).tablets,
       ∀ t2 ∈ (MasterServer.setTablets s newTablets).tablets,
        t1.table_id = t2.table_id → t1.user_data = t2.user_data) := by
  have hmodOld : ∀ t ∈ s.tablets, t.table_id % MasterServer.U32 = t.table_id :=
    fun t ht => Nat.mod_eq_of_lt (hltOld t ht)
  have hmodNew : ∀ t ∈ newTablets, t.table_id % MasterServer.U32 = t.table_id :=
    fun t ht => Nat.mod_eq_of_lt (hltNew t ht)
  have hF1 : ∀ told ∈ s.tablets,
      MasterServer.mapLookup (MasterServer.buildTables s.tablets)
        (told.table_id % MasterServer.U32) = some told.user_data := by
    intro told htold
    refine MasterServer.buildTables_lookup s.tablets told htold ?_
    intro t' ht' hk
    refine hcons t' ht' told htold ?_
    rw [hmodOld t' ht', hmodOld told htold] at hk
    exact hk
  refine ⟨?_, ?_, ?_, ?_⟩
  · intro told htold tn htn hid
    constructor
    · have hl : MasterServer.mapLookup (MasterServer.buildTables s.tablets)
          (tn.table_id % MasterServer.U32) = some told.user_data := by
        rw [← hid]
        exact hF1 told htold
      exact MasterServer.assign_mem_of_lookup newTablets
        (MasterServer.buildTables s.tablets)
        (MasterServer.deleteOldTables (MasterServer.buildTables s.tablets)
          newTablets s.heap)
        s.nextToken tn told.user_data htn hl
    · show (MasterServer.assignTables newTablets
          (MasterServer.buildTables s.tablets)
          (MasterServer.deleteOldTables (MasterServer.buildTables s.tablets)
            newTablets s.heap)
          s.nextToken).2.2.1 told.user_data = s.heap told.user_data
      rw [MasterServer.assign_heap_lt newTablets _ _ s.nextToken told.user_data
        (hfresh told htold)]
      refine MasterServer.deleteOldTables_preserves _ newTablets s.heap
        told.user_data ?_
      intro kv hkv he
      obtain ⟨t', ht', hk1, hk2⟩ :=
        MasterServer.buildTables_mem s.tablets kv hkv
      rw [hk2] at he
      have hidt : t'.table_id = told.table_id := hinj t' ht' told htold he
      refine ⟨tn, htn, ?_⟩
      rw [hk1, hmodOld t' ht', hidt, hid]
  · intro told htold honly
    show (MasterServer.assignTables newTablets
        (MasterServer.buildTables s.tablets)
        (MasterServer.deleteOldTables (MasterServer.buildTables s.tablets)
          newTablets s.heap)
        s.nextToken).2.2.1 told.user_data = none
    rw [MasterServer.assign_heap_lt newTablets _ _ s.nextToken told.user_data
      (hfresh told htold)]
    refine MasterServer.deleteOldTables_deletes _ newTablets s.heap
      (told.table_id % MasterServer.U32) told.user_data ?_ ?_
    · exact MasterServer.mapLookup_mem _ _ _ (hF1 told htold)
    · intro nt hnt
      rw [hmodOld told htold]
      exact fun he => honly nt hnt he.symm
  · intro tn htn honly
    obtain ⟨ud, hud⟩ := MasterServer.assign_mem newTablets
      (MasterServer.buildTables s.tablets)
      (MasterServer.deleteOldTables (MasterServer.buildTables s.tablets)
        newTablets s.heap)
      s.nextToken tn htn
    have hl := MasterServer.assign_tablets_lookup newTablets
      (MasterServer.buildTables s.tablets)
      (MasterServer.deleteOldTables (MasterServer.buildTables s.tablets)
        newTablets s.heap)
      s.nextToken ⟨tn.table_id, ud⟩ hud
    rcases MasterServer.assign_lookup_src newTablets _ _ s.nextToken
        (tn.table_id % MasterServer.U32) ud hl with
      h1 | ⟨hge, nt0, hm0, hk0, hh0⟩
    · exfalso
      obtain ⟨t', ht', hk1, hk2⟩ := MasterServer.buildTables_mem s.tablets _
        (MasterServer.mapLookup_mem _ _ _ h1)
      refine honly t' ht' ?_
      have : tn.table_id % MasterServer.U32 = t'.table_id % MasterServer.U32 := hk1
      rw [hmodOld t' ht', hmodNew tn htn] at this
      exact this.symm
    · have hideq : nt0.table_id = tn.table_id := by
        have := hk0
        rw [hmodNew nt0 hm0, hmodNew tn htn] at this
        exact this
      refine ⟨ud, hud, hge, ?_⟩
      show (MasterServer.assignTables newTablets
          (MasterServer.buildTables s.tablets)
          (MasterServer.deleteOldTables (MasterServer.buildTables s.tablets)
            newTablets s.heap)
          s.nextToken).2.2.1 ud = some ⟨tn.table_id, 0, 1⟩
      rw [← hideq]
      exact hh0
  · intro t1 ht1 t2 ht2 hid
    have l1 := MasterServer.assign_tablets_lookup newTablets
      (MasterServer.buildTables s.tablets)
      (MasterServer.deleteOldTables (MasterServer.buildTables s.tablets)
        newTablets s.heap)
      s.nextToken t1 ht1
    have l2 := MasterServer.assign_tablets_lookup newTablets
      (MasterServer.buildTables s.tablets)
      (MasterServer.deleteOldTables (MasterServer.buildTables s.tablets)
        newTablets s.heap)
      s.nextToken t2 ht2
    rw [hid] at l1
    rw [l1] at l2
    injection l2

theorem setTablets_table_preservation_witness :
    (∀ t ∈ ([⟨1, 0⟩] : List MasterServer.TabletT), t.table_id < MasterServer.U32)
    ∧ (∀ t ∈ ([⟨1, 99⟩, ⟨2, 5⟩] : List MasterServer.TabletT),
        t.table_id < MasterServer.U32)
    ∧ (∀ tn ∈ ([⟨1, 99⟩, ⟨2, 5⟩] : List MasterServer.TabletT),
        (∀ told ∈ (MasterServer.TabState.mk [⟨1, 0⟩]
            (fun tok => if tok = 0 then some ⟨1, 0, 1⟩ else none) 1).tablets,
          told.table_id ≠ tn.table_id) →
        ∃ ud, (⟨tn.table_id, ud⟩ : MasterServer.TabletT) ∈
            (MasterServer.setTablets
              (MasterServer.TabState.mk [⟨1, 0⟩]
                (fun tok => if tok = 0 then some ⟨1, 0, 1⟩ else none) 1)
              [⟨1, 99⟩, ⟨2, 5⟩]).tablets
          ∧ (MasterServer.TabState.mk [⟨1, 0⟩]
              (fun tok => if tok = 0 then some ⟨1, 0, 1⟩ else none) 1).nextToken ≤ ud
          ∧ (MasterServer.setTablets
              (MasterServer.TabState.mk [⟨1, 0⟩]
                (fun tok => if tok = 0 then some ⟨1, 0, 1⟩ else none) 1)
              [⟨1, 99⟩, ⟨2, 5⟩]).heap ud = some ⟨tn.table_id, 0, 1⟩) :=
  ⟨by decide, by decide,
   (setTablets_table_preservation
     (MasterServer.TabState.mk [⟨1, 0⟩]
       (fun tok => if tok = 0 then some ⟨1, 0, 1⟩ else none) 1)
     [⟨1, 99⟩, ⟨2, 5⟩]
     (by decide) (by decide) (by decide) (by decide) (by decide)).2.2.1⟩

end RAMCloud
